import Mathlib

/-!
# Freehold file handlers

A shallow embedding of `file.go` of the freehold server: the handlers
`fileGet`/`docsGet` (through `serveResource`), `filePost` and `fileDelete`,
over an explicit state made of the resource tree and the permission-record
store.

* The backing file system is an in-memory tree: a partial map from file
  paths to nodes, plus the order in which a directory enumerates its
  entries.  The calls of the Go `os` package the handlers make (`Open`,
  `Stat`, `Readdir`, `Remove`, `OpenFile` with `O_CREATE|O_EXCL`, `Write`,
  `Close`) are functions over that tree; each of them may also fail with an
  error of the system's choosing, also where the handler discards the error.
* What the handlers write to the `http.ResponseWriter` is the list of
  `Response` events they return.
* Helpers of the repository that live outside `file.go` (`urlPathToFile`,
  `fileErrorItem`, the methods of `Permission`) and `path.Join` are fields of
  `Env`: every theorem holds for all of them.  `four04`, `errHandled` (for a
  non-nil error) and `respondJsend` each write one response: the events
  `four04`, `error e` and `jsend j`.
* A request is assumed to carry a parsed multipart form; `authenticate` is
  represented by its result.
-/

namespace Freehold

/-! ## Data -/

/-- Values of Go's `error` the handlers can meet. `pubFail` and `pubErr` are the
repository's wrappers of the same names. -/
inductive Err where
  | notExist
  | exist
  | notEmpty
  | notDir
  | shortWrite
  | permNotFound
  | io (code : Nat)
  | text (msg : String)
  | pubFail (e : Err)
  | pubErr (e : Err)
  deriving DecidableEq

/-- The test `os.IsNotExist(err)`. -/
def Err.isNotExist : Err → Bool
  | .notExist => true
  | _ => false

/-- The `Status` field of a JSend envelope: `statusSuccess`, `statusFail`, `statusError`. -/
inductive Status where
  | success
  | fail
  | error
  deriving DecidableEq

/-- The struct `Properties`, with the two fields `file.go` fills. -/
structure Properties where
  Name : String
  Url : String
  deriving DecidableEq

/-- The struct `ErrorItem`. -/
structure ErrorItem where
  Message : String
  Data : Properties
  deriving DecidableEq

/-- The struct `JSend`, the response envelope. -/
structure JSend where
  Status : Status
  Data : List Properties
  Errors : List ErrorItem
  Message : String
  deriving DecidableEq

/-- The struct `Permission`, the four-tier access record of a resource. -/
structure Permission where
  Owner : String
  Public : String
  Friend : String
  Private : String
  deriving DecidableEq

/-- The struct `User`. -/
structure User where
  username : String
  deriving DecidableEq

/-- The struct `Auth`; an anonymous requester is the nil pointer, `none`. -/
structure Auth where
  user : User
  deriving DecidableEq

/-- What `os.FileInfo` tells the handlers: `Name()` and `IsDir()`. -/
structure FileInfo where
  name : String
  isDir : Bool
  deriving DecidableEq

/-- An open `*os.File`: the name it was opened with, and whether its directory
stream has been read to the end (a later `Readdir(0)` then yields nothing). -/
structure File where
  name : String
  eof : Bool
  deriving DecidableEq

/-- One node of the resource tree. -/
inductive Node where
  | file (data : List Nat)
  | dir
  deriving DecidableEq

/-- Whether the node is a directory. -/
def Node.isDir : Node → Bool
  | .dir => true
  | .file _ => false

/-- The combined state: the resource tree (`node`, with the enumeration order
of its paths in `order`) and the permission-record store (`perms`, keyed by
resource url). -/
structure State where
  node : String → Option Node
  order : List String
  perms : String → Option Permission

/-- What is written to the response. -/
inductive Response where
  | four04
  | error (e : Err)
  | jsend (j : JSend)
  | redirect (url : String) (code : Nat)
  | markdown (title : String) (source : List Nat)
  | content (name : String) (data : List Nat)
  deriving DecidableEq

/-- The collaborators of `file.go`: helpers of the repository defined in other
files, `path.Join`, and the failures the operating system or the permission
store may answer a call with, whatever the tree holds (`openFault` for
`os.Open`, `removeFault` for `os.Remove`, and so on). -/
structure Env where
  urlPathToFile : String → String
  pathJoin : String → String → String
  prmIsOwner : Permission → User → Bool
  prmCanRead : Permission → Option Auth → Bool
  fileErrorItem : Err → String → String → Status × ErrorItem
  openFault : String → Option Err
  statFault : String → Option Err
  readdirFault : String → Option Err
  readFault : String → Option Err
  removeFault : String → Option Err
  permFault : String → Option Err

/-! ## Strings and paths (Go standard library) -/

/-- The loop of `path.Ext`, scanning from the last character backwards: `acc`
holds the characters already passed. -/
def extScan : List Char → List Char → List Char
  | [], _ => []
  | c :: rest, acc =>
    if c = '/' then [] else if c = '.' then '.' :: acc else extScan rest (c :: acc)

/-- Go's `path.Ext`: the suffix starting at the final dot of the last
slash-separated element, empty when there is no dot. -/
def pathExt (p : String) : String :=
  String.mk (extScan p.data.reverse [])

/-- Go's `strings.TrimRight(s, cutset)`: `s` without its trailing characters
that occur in `cutset`. -/
def trimRight (s cutset : String) : String :=
  String.mk (s.data.reverse.dropWhile (fun c => decide (c ∈ cutset.data))).reverse

/-- Go's `strings.Replace(s, old, new, 1)` on character lists, for non-empty `old`. -/
def replaceFirst (old new : List Char) : List Char → List Char
  | [] => []
  | c :: cs =>
    if old.isPrefixOf (c :: cs) then new ++ (c :: cs).drop old.length
    else c :: replaceFirst old new cs

/-- The last slash-separated element of a path. -/
def baseName (p : String) : String :=
  String.mk (p.data.reverse.takeWhile (fun c => decide (c ≠ '/'))).reverse

/-- The constant `markdownType`. -/
def markdownType : String := ".markdown"

/-! ## The resource tree and the permission store -/

/-- The entries of directory `d`, in enumeration order: the paths of the tree
that are `d` joined with their own last element. -/
def dirEntries (env : Env) (st : State) (d : String) : List FileInfo :=
  st.order.filterMap (fun k =>
    if env.pathJoin d (baseName k) = k ∧ k ≠ d then
      (st.node k).map (fun n => FileInfo.mk (baseName k) n.isDir)
    else none)

/-- Whether the path lies below a regular file of the tree: some file path
followed by a slash is a prefix of it. -/
def belowFile (st : State) (name : String) : Bool :=
  st.order.any (fun k =>
    (match st.node k with
      | some (.file _) => true
      | _ => false) && (k.data ++ ['/']).isPrefixOf name.data)

/-- The call `os.Open(name)`: any failure the system answers with; else the
not-a-directory error for a path below a regular file, the not-exist error for
another path without a node, and the open file for a path with a node. -/
def osOpen (env : Env) (st : State) (name : String) : Except Err File :=
  match env.openFault name with
  | some e => .error e
  | none =>
    if belowFile st name then .error .notDir
    else
      match st.node name with
      | none => .error .notExist
      | some _ => .ok (File.mk name false)

/-- The call `file.Stat()`. -/
def File.stat (env : Env) (st : State) (f : File) : Except Err FileInfo :=
  match env.statFault f.name with
  | some e => .error e
  | none =>
    match st.node f.name with
    | none => .error .notExist
    | some n => .ok (FileInfo.mk (baseName f.name) n.isDir)

/-- The call `file.Readdir(0)`: all entries not yet read from the directory
stream, which is then at its end. -/
def File.readdir (env : Env) (st : State) (f : File) : Except Err (List FileInfo) × File :=
  match env.readdirFault f.name with
  | some e => (.error e, f)
  | none =>
    match st.node f.name with
    | some .dir =>
      if f.eof then (.ok [], f) else (.ok (dirEntries env st f.name), File.mk f.name true)
    | _ => (.error .notDir, f)

/-- The call `ioutil.ReadAll(file)`. -/
def File.readAll (env : Env) (st : State) (f : File) : Except Err (List Nat) :=
  match env.readFault f.name with
  | some e => .error e
  | none =>
    match st.node f.name with
    | some (.file d) => .ok d
    | _ => .error .notExist

/-- The tree without the node at `name`. -/
def State.erase (st : State) (name : String) : State :=
  { st with node := fun k => if k = name then none else st.node k }

/-- The tree with `n` at `name`; a new path is enumerated last. -/
def State.put (st : State) (name : String) (n : Node) : State :=
  { st with
    node := fun k => if k = name then some n else st.node k
    order := if name ∈ st.order then st.order else st.order ++ [name] }

/-- The call `os.Remove(name)`: any failure the system answers with, the tree
then unchanged; else it unlinks a file and removes a directory only when it is
empty. -/
def osRemove (env : Env) (st : State) (name : String) : Except Err State :=
  match env.removeFault name with
  | some e => .error e
  | none =>
    match st.node name with
    | none => .error .notExist
    | some (.file _) => .ok (st.erase name)
    | some .dir => if dirEntries env st name = [] then .ok (st.erase name) else .error .notEmpty

/-- The statement `os.Remove(name)` as the handlers write it, its error dropped. -/
def osRemoveStmt (env : Env) (st : State) (name : String) : State :=
  match osRemove env st name with
  | .ok st1 => st1
  | .error _ => st

/-- The call `os.OpenFile(name, os.O_WRONLY|os.O_CREATE|os.O_EXCL, 0600)`:
fails when the path exists, creates an empty file otherwise; `fault` is any
other failure of the call. -/
def osOpenFileExcl (st : State) (name : String) (fault : Option Err) : Except Err State :=
  match st.node name with
  | some _ => .error .exist
  | none =>
    match fault with
    | some e => .error e
    | none => .ok (st.put name (.file []))

/-- Modelled from the spec: `permissions`, the load of the Permission Record
Store, missing from the sources: the record stored for the resource, an error
when there is none or when the store fails. -/
def permissions (env : Env) (st : State) (resource : String) : Except Err Permission :=
  match env.permFault resource with
  | some e => .error e
  | none =>
    match st.perms resource with
    | none => .error .permNotFound
    | some prm => .ok prm

/-- Modelled from the spec: `setPermissions`, the save of the Permission Record
Store, missing from the sources: stores the record for the resource unless the
store fails with `fault`. -/
def setPermissions (st : State) (resource : String) (prm : Permission) (fault : Option Err) :
    Except Err State :=
  match fault with
  | some e => .error e
  | none => .ok { st with perms := fun r => if r = resource then some prm else st.perms r }

/-- Modelled from the spec: the function `canRead(auth, resource)`, missing from
the sources: loads the permission record of the resource and evaluates the
read capability of the requester on it. -/
def canRead (env : Env) (st : State) (auth : Option Auth) (resource : String) : Except Err Bool :=
  match permissions env st resource with
  | .error e => .error e
  | .ok prm => .ok (env.prmCanRead prm auth)

/-! ## serveResource -/

/-- The function `writeMarkdown`: the page title and the markdown source handed
to the renderer. -/
def writeMarkdown (env : Env) (st : State) (file : File) : Except Err (String × List Nat) :=
  match file.readAll env st with
  | .error e => .error e
  | .ok buf => .ok (trimRight file.name markdownType, buf)

/-- The function `serveFile`. -/
def serveFile (env : Env) (st : State) (file : File) (_info : FileInfo) : List Response :=
  if pathExt file.name = markdownType then
    match writeMarkdown env st file with
    | .error e => [.error e]
    | .ok page => [.markdown page.1 page.2]
  else
    match st.node file.name with
    | some (.file d) => [.content file.name d]
    | _ => [.content file.name []]

/-- The test of `serveResource` for an index file:
`strings.TrimRight(name, path.Ext(name)) == "index"`. -/
def isIndexName (name : String) : Bool :=
  decide (trimRight name (pathExt name) = "index")

/-- The target of the redirect of `serveResource`. -/
def propertiesUrl (urlPath : String) : String :=
  String.mk (replaceFirst "/v1/file/".data "/v1/properties/file/".data urlPath.data)

/-- The loop of `serveResource` over the entries of a directory, and what
follows it; `canReadDir` is the variable of that name. -/
def serveDir (env : Env) (st : State) (urlPath resource : String) (auth : Option Auth)
    (dir : String) : List FileInfo → Bool → List Response
  | [], canReadDir =>
    if canReadDir then [.redirect (propertiesUrl urlPath) 302] else [.four04]
  | f :: rest, canReadDir =>
    if f.isDir then serveDir env st urlPath resource auth dir rest canReadDir
    else
      match canRead env st auth (env.pathJoin resource f.name) with
      | .error e => [.error e]
      | .ok true =>
        if isIndexName f.name then
          match osOpen env st (env.pathJoin dir f.name) with
          | .error e => [.error e]
          | .ok indexFile => serveFile env st indexFile f
        else serveDir env st urlPath resource auth dir rest true
      | .ok false => [.four04]

/-- The function `serveResource`; `urlPath` is `r.URL.Path`. -/
def serveResource (env : Env) (st : State) (urlPath resource : String) (auth : Option Auth) :
    List Response :=
  match osOpen env st (env.urlPathToFile resource) with
  | .error e => if e.isNotExist then [.four04] else [.error e]
  | .ok file =>
    match file.stat env st with
    | .error e => [.error e]
    | .ok info =>
      if !info.isDir then
        match canRead env st auth resource with
        | .error e => [.error e]
        | .ok ok => if !ok then [.four04] else serveFile env st file info
      else
        match file.readdir env st with
        | (.error e, _) => [.error e]
        | (.ok files, _) => serveDir env st urlPath resource auth file.name files false

/-- The handler `fileGet`; `authRes` is what `authenticate` returned. -/
def fileGet (env : Env) (st : State) (authRes : Except Err (Option Auth)) (urlPath : String) :
    List Response :=
  match authRes with
  | .error e => [.error e]
  | .ok auth => serveResource env st urlPath urlPath auth

/-- The handler `docsGet`. -/
def docsGet (env : Env) (st : State) (urlPath : String) : List Response :=
  serveResource env st urlPath urlPath none

/-! ## fileDelete -/

/-- The variables the loop of `fileDelete` updates, with the state. -/
structure DelAcc where
  st : State
  fileList : List Properties
  errors : List ErrorItem
  status : Status

/-- The message of `fileDelete` for a requester who is not the owner. -/
def notOwnerMsg : String := "You do not have owner permissions on this resource."

/-- The loop of `fileDelete` over the entries of the directory `dir` (the
resource `resource`). A failing permission lookup ends the handler: the error
is returned with the state reached. -/
def deleteLoop (env : Env) (auth : Auth) (resource dir : String) :
    List FileInfo → DelAcc → Except (Err × State) DelAcc
  | [], acc => .ok acc
  | f :: rest, acc =>
    if !f.isDir then
      let child := env.pathJoin resource f.name
      match permissions env acc.st child with
      | .error e => .error (e, acc.st)
      | .ok prm =>
        if env.prmIsOwner prm auth.user then
          deleteLoop env auth resource dir rest
            { acc with
              st := osRemoveStmt env acc.st (env.pathJoin dir f.name)
              fileList := acc.fileList ++ [Properties.mk f.name child] }
        else if !env.prmCanRead prm (some auth) then
          deleteLoop env auth resource dir rest acc
        else
          deleteLoop env auth resource dir rest
            { acc with
              status := .fail
              errors := acc.errors ++ [ErrorItem.mk notOwnerMsg (Properties.mk f.name child)] }
    else deleteLoop env auth resource dir rest acc

/-- The handler `fileDelete`: what it writes to the response and the state it
leaves; `authRes` is what `authenticate` returned, `resource` is `r.URL.Path`. -/
def fileDelete (env : Env) (st : State) (authRes : Except Err (Option Auth))
    (resource : String) : List Response × State :=
  match authRes with
  | .error e => ([.error e], st)
  | .ok none => ([.error (.pubFail (.text "You must log in before deleting a file."))], st)
  | .ok (some auth) =>
    match osOpen env st (env.urlPathToFile resource) with
    | .error e => if e.isNotExist then ([.four04], st) else ([.error e], st)
    | .ok file =>
      match file.stat env st with
      | .error e => ([.error e], st)
      | .ok info =>
        if !info.isDir then
          match permissions env st resource with
          | .error e => ([.error e], st)
          | .ok prm =>
            if !env.prmIsOwner prm auth.user then
              if !env.prmCanRead prm (some auth) then ([.four04], st)
              else ([.jsend (JSend.mk .fail [] [] notOwnerMsg)], st)
            else ([], osRemoveStmt env st (env.urlPathToFile resource))
        else
          match file.readdir env st with
          | (.error e, _) => ([.error e], st)
          | (.ok files, file1) =>
            match deleteLoop env auth resource file.name files (DelAcc.mk st [] [] .success) with
            | .error (e, st1) => ([.error e], st1)
            | .ok acc =>
              let resp := [Response.jsend (JSend.mk acc.status acc.fileList acc.errors "")]
              match file1.readdir env acc.st with
              | (.error _, _) => (resp, acc.st)
              | (.ok files2, _) =>
                if files2.length = 0 then (resp, osRemoveStmt env acc.st file.name)
                else (resp, acc.st)

/-! ## filePost -/

/-- One `multipart.FileHeader` of the request as `filePost` meets it: its
`Filename`, what `Open()` and `ioutil.ReadAll` answer for it, and what the
operating system and the permission store answer while its destination is
written: a failure of `OpenFile` other than the path existing, the count `n`
and the error returned by `Write`, the error of `Close`, the error of
`setPermissions`. -/
structure FileHeader where
  Filename : String
  openErr : Option Err
  content : Except Err (List Nat)
  createErr : Option Err
  written : Nat
  writeErr : Option Err
  closeErr : Option Err
  setPermErr : Option Err

/-- The variables the loop of `filePost` updates, with the state. -/
structure PostAcc where
  st : State
  fileList : List Properties
  errors : List ErrorItem
  status : Status

/-- The three lines of `filePost` after a failure: the error item is appended
and the status replaced. -/
def PostAcc.failWith (env : Env) (acc : PostAcc) (st : State) (e : Err)
    (filename resource : String) : PostAcc :=
  { st := st
    fileList := acc.fileList
    errors := acc.errors ++ [(env.fileErrorItem e filename resource).2]
    status := (env.fileErrorItem e filename resource).1 }

/-- The error after `Write` and `Close`: the error of `Write`, else
`io.ErrShortWrite` when fewer bytes were written than given, else the error
of `Close`. -/
def writeCloseErr (fh : FileHeader) (bytes : List Nat) : Option Err :=
  match fh.writeErr with
  | some e => some e
  | none => if fh.written < bytes.length then some .shortWrite else fh.closeErr

/-- The body of the inner loop of `filePost` for one file header. -/
def postFile (env : Env) (auth : Auth) (urlPath : String) (acc : PostAcc) (fh : FileHeader) :
    PostAcc :=
  let resource := env.pathJoin urlPath fh.Filename
  let filename := env.urlPathToFile resource
  match fh.openErr with
  | some e => acc.failWith env acc.st e filename resource
  | none =>
    match fh.content with
    | .error e => acc.failWith env acc.st e filename resource
    | .ok bytes =>
      match osOpenFileExcl acc.st filename fh.createErr with
      | .error e => acc.failWith env acc.st (.pubErr e) filename resource
      | .ok st1 =>
        let st2 := st1.put filename (.file (bytes.take fh.written))
        match writeCloseErr fh bytes with
        | some e => acc.failWith env st2 e filename resource
        | none =>
          match setPermissions st2 resource
              (Permission.mk auth.user.username "" "" "rw") fh.setPermErr with
          | .error e => acc.failWith env st2 e filename resource
          | .ok st3 =>
            { acc with
              st := st3
              fileList := acc.fileList ++ [Properties.mk filename resource] }

/-- The handler `filePost`: what it writes to the response and the state it
leaves; `authRes` is what `authenticate` returned, `urlPath` is `r.URL.Path`,
`mp` the values of the parsed form `mp.File` in the order the loop meets
them. -/
def filePost (env : Env) (st : State) (authRes : Except Err (Option Auth)) (urlPath : String)
    (mp : List (List FileHeader)) : List Response × State :=
  match authRes with
  | .error e => ([.error e], st)
  | .ok none => ([.error (.pubFail (.text "You must log in before posting a file."))], st)
  | .ok (some auth) =>
    let acc := mp.foldl (fun acc files => files.foldl (postFile env auth urlPath) acc)
      (PostAcc.mk st [] [] .success)
    ([.jsend (JSend.mk acc.status acc.fileList acc.errors "")], acc.st)

/-- What one file header contributes when processed in state `st`: the entries
appended to `Data`, the entries appended to `Errors`. -/
def itemOutcome (env : Env) (auth : Auth) (urlPath : String) (st : State) (fh : FileHeader) :
    List Properties × List ErrorItem :=
  ((postFile env auth urlPath (PostAcc.mk st [] [] .success) fh).fileList,
    (postFile env auth urlPath (PostAcc.mk st [] [] .success) fh).errors)

/-- The outcome of every file header of a batch, processed in order from `st`. -/
def outcomes (env : Env) (auth : Auth) (urlPath : String) :
    State → List FileHeader → List (List Properties × List ErrorItem)
  | _, [] => []
  | st, fh :: rest =>
    itemOutcome env auth urlPath st fh ::
      outcomes env auth urlPath (postFile env auth urlPath (PostAcc.mk st [] [] .success) fh).st rest

/-! ## Notions used to state the results -/

/-- Whether the entry `f` of the directory `resource` is a file owned by the
requester: the owner test of `fileDelete` on the permission record of the
child. -/
def ownsEntry (env : Env) (st : State) (auth : Auth) (resource : String) (f : FileInfo) : Bool :=
  !f.isDir &&
    match permissions env st (env.pathJoin resource f.name) with
    | .ok prm => env.prmIsOwner prm auth.user
    | .error _ => false

/-- Whether the entry `f` of the directory `resource` is a file the requester
does not own and can read. -/
def deniedEntry (env : Env) (st : State) (auth : Auth) (resource : String) (f : FileInfo) :
    Bool :=
  !f.isDir &&
    match permissions env st (env.pathJoin resource f.name) with
    | .ok prm => !env.prmIsOwner prm auth.user && env.prmCanRead prm (some auth)
    | .error _ => false

/-- The descriptor `fileDelete` reports for the entry `f` of `resource`. -/
def childProps (env : Env) (resource : String) (f : FileInfo) : Properties :=
  Properties.mk f.name (env.pathJoin resource f.name)

/-- Whether the entry `f` of the directory `resource`, stored under `dir`, is a
file owned by the requester whose `os.Remove` the system does not fail. -/
def removedEntry (env : Env) (st : State) (auth : Auth) (resource dir : String)
    (f : FileInfo) : Bool :=
  ownsEntry env st auth resource f && (env.removeFault (env.pathJoin dir f.name)).isNone

/-- The tree without the nodes at the paths `ks`. -/
def State.eraseKeys (st : State) (ks : List String) : State :=
  { st with node := fun k => if k ∈ ks then none else st.node k }

/-- The resource an upload item is stored as: `path.Join(r.URL.Path, Filename)`. -/
def targetUrl (env : Env) (urlPath : String) (fh : FileHeader) : String :=
  env.pathJoin urlPath fh.Filename

/-- The file path of the resource an upload item is stored as. -/
def targetFile (env : Env) (urlPath : String) (fh : FileHeader) : String :=
  env.urlPathToFile (env.pathJoin urlPath fh.Filename)

/-- The permission record `filePost` stores for an upload of `auth`. -/
def uploadPermission (auth : Auth) : Permission :=
  Permission.mk auth.user.username "" "" "rw"

/-- Whether nothing fails for the item of its own: its source opens and reads,
and creating, writing and closing the destination and storing the permission
record answer no error. -/
def FileHeader.clean (fh : FileHeader) : Bool :=
  match fh.openErr, fh.content, fh.createErr with
  | none, .ok bytes, none => (writeCloseErr fh bytes).isNone && fh.setPermErr.isNone
  | _, _, _ => false

/-- What the item leaves at its destination when that path was free at its
turn: nothing when it fails before `OpenFile` succeeds, else a file holding
the bytes `Write` wrote. -/
def FileHeader.leftover (fh : FileHeader) : Option Node :=
  match fh.openErr, fh.content, fh.createErr with
  | none, .ok bytes, none => some (.file (bytes.take fh.written))
  | _, _, _ => none

/-- The error `filePost` records for an item that does not succeed; `free` tells
whether its destination path was free at its turn. -/
def FileHeader.failure (fh : FileHeader) (free : Bool) : Err :=
  match fh.openErr with
  | some e => e
  | none =>
    match fh.content with
    | .error e => e
    | .ok bytes =>
      if !free then .pubErr .exist
      else
        match fh.createErr with
        | some e => .pubErr e
        | none =>
          match writeCloseErr fh bytes with
          | some e => e
          | none =>
            match fh.setPermErr with
            | some e => e
            | none => .exist

/-- The loop of `filePost` over the items `items` in order, from `st` and empty
lists. -/
def runPost (env : Env) (auth : Auth) (urlPath : String) (st : State)
    (items : List FileHeader) : PostAcc :=
  items.foldl (postFile env auth urlPath) (PostAcc.mk st [] [] .success)

/-- The state after the items `items` were processed in order from `st`. -/
def stateAfter (env : Env) (auth : Auth) (urlPath : String) (st : State)
    (items : List FileHeader) : State :=
  (runPost env auth urlPath st items).st

/-- The `Data` list of the envelope a handler wrote, empty when it wrote none. -/
def respData : List Response → List Properties
  | [.jsend j] => j.Data
  | _ => []

/-- The `Errors` list of the envelope a handler wrote, empty when it wrote none. -/
def respErrors : List Response → List ErrorItem
  | [.jsend j] => j.Errors
  | _ => []

/-! ## A sample installation -/

/-- A sample configuration: resources under `/v1/file/` are stored below the
working directory, names are joined with a slash, the owner of a record is
the user of that name, a record is readable by its owner and by everyone when
its public tier holds `r`; no operation fails for a reason of its own. -/
def sampleEnv : Env where
  urlPathToFile := fun p => "." ++ p
  pathJoin := fun a b => a ++ "/" ++ b
  prmIsOwner := fun prm u => decide (prm.Owner = u.username)
  prmCanRead := fun prm auth =>
    (match auth with
      | some a => decide (prm.Owner = a.user.username)
      | none => false) || decide ('r' ∈ prm.Public.data)
  fileErrorItem := fun e name url =>
    ((match e with
      | .pubErr _ => Status.fail
      | .pubFail _ => Status.fail
      | _ => Status.error),
      ErrorItem.mk
        (match e with
          | .pubErr .exist => "file exists"
          | .shortWrite => "short write"
          | _ => "upload failed")
        (Properties.mk name url))
  openFault := fun _ => none
  statFault := fun _ => none
  readdirFault := fun _ => none
  readFault := fun _ => none
  removeFault := fun _ => none
  permFault := fun _ => none

/-- The sample configuration on a system that fails `os.Remove` of the path `p`
with the error code 13 (permission denied) and no other call. -/
def removeDenied (p : String) : Env :=
  { sampleEnv with removeFault := fun q => if q = p then some (.io 13) else none }

/-- The state holding the listed nodes, enumerated in the order given, and the
listed permission records. -/
def mkState (nodes : List (String × Node)) (prms : List (String × Permission)) : State where
  node := fun k => nodes.lookup k
  order := nodes.map Prod.fst
  perms := fun r => prms.lookup r

/-- A record owned by `owner`, readable by everyone. -/
def publicRead (owner : String) : Permission := Permission.mk owner "r" "" "rw"

/-- A record owned by `owner`, closed to everyone else. -/
def privateOnly (owner : String) : Permission := Permission.mk owner "" "" "rw"

/-- The directory `docs` holding `a.txt` (public read) then `b.txt` (private). -/
def docsAB : State :=
  mkState
    [("./v1/file/docs", .dir), ("./v1/file/docs/a.txt", .file [97]),
      ("./v1/file/docs/b.txt", .file [98])]
    [("/v1/file/docs/a.txt", publicRead "alice"), ("/v1/file/docs/b.txt", privateOnly "alice")]

/-- The same directory enumerated in the other order. -/
def docsBA : State :=
  mkState
    [("./v1/file/docs", .dir), ("./v1/file/docs/b.txt", .file [98]),
      ("./v1/file/docs/a.txt", .file [97])]
    [("/v1/file/docs/a.txt", publicRead "alice"), ("/v1/file/docs/b.txt", privateOnly "alice")]

/-- A directory whose only entry is the readable file `index.xed`. -/
def docsIndexXed : State :=
  mkState
    [("./v1/file/docs", .dir), ("./v1/file/docs/index.xed", .file [120])]
    [("/v1/file/docs/index.xed", publicRead "alice")]

/-- A directory holding the readable files `notes.txt` and `indexd.d`. -/
def docsIndexdD : State :=
  mkState
    [("./v1/file/docs", .dir), ("./v1/file/docs/notes.txt", .file [110]),
      ("./v1/file/docs/indexd.d", .file [100])]
    [("/v1/file/docs/notes.txt", publicRead "alice"),
      ("/v1/file/docs/indexd.d", publicRead "alice")]

/-- An empty directory `docs`. -/
def docsEmpty : State :=
  mkState [("./v1/file/docs", .dir)] []

/-- A directory `docs` holding the private file `b.txt` and the sub-directory
`sub`, itself holding a public file. -/
def docsPrivate : State :=
  mkState
    [("./v1/file/docs", .dir), ("./v1/file/docs/sub", .dir),
      ("./v1/file/docs/b.txt", .file [98]), ("./v1/file/docs/sub/c.txt", .file [99])]
    [("/v1/file/docs/b.txt", privateOnly "alice"),
      ("/v1/file/docs/sub/c.txt", publicRead "alice")]

/-- The requester `alice`. -/
def alice : Auth := Auth.mk (User.mk "alice")

/-- The requester `bob`. -/
def bob : Auth := Auth.mk (User.mk "bob")

/-- A directory `shared` holding `a.txt` (of alice, private), `b.txt` (of bob,
public read), `c.txt` (of bob, private) and the sub-directory `sub`. -/
def sharedDir : State :=
  mkState
    [("./v1/file/shared", .dir), ("./v1/file/shared/a.txt", .file [97]),
      ("./v1/file/shared/b.txt", .file [98]), ("./v1/file/shared/sub", .dir),
      ("./v1/file/shared/c.txt", .file [99])]
    [("/v1/file/shared/a.txt", privateOnly "alice"),
      ("/v1/file/shared/b.txt", publicRead "bob"),
      ("/v1/file/shared/c.txt", privateOnly "bob")]

/-- A directory `mine` holding two files of alice. -/
def mineDir : State :=
  mkState
    [("./v1/file/mine", .dir), ("./v1/file/mine/a.txt", .file [97]),
      ("./v1/file/mine/b.txt", .file [98])]
    [("/v1/file/mine/a.txt", privateOnly "alice"),
      ("/v1/file/mine/b.txt", publicRead "alice")]

/-- An upload item named `name` with the bytes `bytes`, for which nothing fails. -/
def upload (name : String) (bytes : List Nat) : FileHeader where
  Filename := name
  openErr := none
  content := .ok bytes
  createErr := none
  written := bytes.length
  writeErr := none
  closeErr := none
  setPermErr := none

/-- An upload item named `name` with the bytes `bytes`, of which `Write` writes
only the first `n`. -/
def shortUpload (name : String) (bytes : List Nat) (n : Nat) : FileHeader :=
  { upload name bytes with written := n }

/-- An empty directory `up`. -/
def upDir : State :=
  mkState [("./v1/file/up", .dir)] []

/-! ## serveResource: results -/

theorem serveDir_none_readable (env : Env) (st : State) (urlPath resource : String)
    (auth : Option Auth) (dir : String) (files : List FileInfo)
    (h : ∀ f ∈ files, f.isDir = false →
      canRead env st auth (env.pathJoin resource f.name) = .ok false) :
    serveDir env st urlPath resource auth dir files false = [.four04] := by
  induction files with
  | nil => simp [serveDir]
  | cons f rest ih =>
    have ih1 := ih (fun g hg => h g (List.mem_cons_of_mem _ hg))
    cases hd : f.isDir with
    | true => simp [serveDir, hd, ih1]
    | false =>
      have hf := h f (List.mem_cons_self _ _) hd
      simp [serveDir, hd, hf]

/-- C1 (the code departs from the claim): in the sample directory `docs`, whose
file children are `a.txt`, readable by the anonymous requester, and `b.txt`,
not readable by them, `serveResource` answers not-found in either enumeration
order, although a child is readable. -/
theorem serveResource_unreadable_sibling_four04 :
    canRead sampleEnv docsAB none "/v1/file/docs/a.txt" = .ok true ∧
    canRead sampleEnv docsAB none "/v1/file/docs/b.txt" = .ok false ∧
    dirEntries sampleEnv docsAB "./v1/file/docs"
      = [FileInfo.mk "a.txt" false, FileInfo.mk "b.txt" false] ∧
    dirEntries sampleEnv docsBA "./v1/file/docs"
      = [FileInfo.mk "b.txt" false, FileInfo.mk "a.txt" false] ∧
    serveResource sampleEnv docsAB "/v1/file/docs" "/v1/file/docs" none = [.four04] ∧
    serveResource sampleEnv docsBA "/v1/file/docs" "/v1/file/docs" none = [.four04] :=
  ⟨rfl, rfl, by decide, by decide, by decide, by decide⟩

/-- C2 (as amended): for every requester, `serveResource` writes the not-found
response and nothing else when `os.Open` reports the path as not existing
(`os.IsNotExist`), when the path is a directory without entries, and when it is
a directory none of whose file entries the requester can read
(sub-directories are not looked at), the permission lookups not failing. -/
theorem serveResource_uniform_four04 (env : Env) (st : State) (urlPath resource : String)
    (auth : Option Auth)
    (h : (∃ e, osOpen env st (env.urlPathToFile resource) = .error e ∧ e.isNotExist = true) ∨
      (∃ file info file1, osOpen env st (env.urlPathToFile resource) = .ok file ∧
        file.stat env st = .ok info ∧ info.isDir = true ∧
        file.readdir env st = (.ok [], file1)) ∨
      (∃ file info files file1, osOpen env st (env.urlPathToFile resource) = .ok file ∧
        file.stat env st = .ok info ∧ info.isDir = true ∧
        file.readdir env st = (.ok files, file1) ∧
        ∀ f ∈ files, f.isDir = false →
          canRead env st auth (env.pathJoin resource f.name) = .ok false)) :
    serveResource env st urlPath resource auth = [.four04] := by
  rcases h with ⟨e, he, hne⟩ | ⟨file, info, file1, ho, hs, hd, hr⟩ |
    ⟨file, info, files, file1, ho, hs, hd, hr, hc⟩
  · simp [serveResource, he, hne]
  · simp [serveResource, ho, hs, hd, hr, serveDir]
  · simp [serveResource, ho, hs, hd, hr, serveDir_none_readable _ _ _ _ _ _ _ hc]

/-- C2 (counterexample): the path `/v1/file/docs/b.txt/x` does not exist and lies
below the regular file `b.txt`: `os.Open` answers the not-a-directory error,
which `os.IsNotExist` does not accept, and `serveResource` writes the error
response of `errHandled`, not the not-found response a missing path gets
elsewhere. -/
theorem serveResource_below_file_error :
    docsAB.node "./v1/file/docs/b.txt" = some (.file [98]) ∧
    docsAB.node (sampleEnv.urlPathToFile "/v1/file/docs/b.txt/x") = none ∧
    serveResource sampleEnv docsAB "/v1/file/docs/b.txt/x" "/v1/file/docs/b.txt/x" none
      = [.error .notDir] ∧
    serveResource sampleEnv docsAB "/v1/file/docs/b.txt/x" "/v1/file/docs/b.txt/x" none
      ≠ [.four04] ∧
    serveResource sampleEnv docsAB "/v1/file/docs/x" "/v1/file/docs/x" none = [.four04] := by
  decide

/-- C3 (the code departs from the claim): the index test trims trailing
characters of the extension's character set rather than the extension, so
`indexd.d` passes it and `index.xed` and `index.txt` do not; a directory whose
only and readable child is `index.xed` is redirected to the listing, and the
directory of the readable `notes.txt` and `indexd.d` serves `indexd.d`. -/
theorem serveResource_index_test_trims_charset :
    trimRight "indexd.d" (pathExt "indexd.d") = "index" ∧
    trimRight "index.xed" (pathExt "index.xed") = "in" ∧
    trimRight "index.txt" (pathExt "index.txt") = "inde" ∧
    canRead sampleEnv docsIndexXed none "/v1/file/docs/index.xed" = .ok true ∧
    serveResource sampleEnv docsIndexXed "/v1/file/docs" "/v1/file/docs" none
      = [.redirect "/v1/properties/file/docs" 302] ∧
    canRead sampleEnv docsIndexdD none "/v1/file/docs/notes.txt" = .ok true ∧
    canRead sampleEnv docsIndexdD none "/v1/file/docs/indexd.d" = .ok true ∧
    serveResource sampleEnv docsIndexdD "/v1/file/docs" "/v1/file/docs" none
      = [.content "./v1/file/docs/indexd.d" [100]] :=
  ⟨by decide, by decide, by decide, rfl, by decide, rfl, rfl, by decide⟩

/-- C2 on the sample installation: a path that does not exist, the empty
directory, and a directory holding a private file and a sub-directory all
answer not-found. -/
theorem serveResource_uniform_four04_witness :
    (docsEmpty.node (sampleEnv.urlPathToFile "/v1/file/nothing") = none ∧
      serveResource sampleEnv docsEmpty "/v1/file/nothing" "/v1/file/nothing" none
        = [.four04]) ∧
    (dirEntries sampleEnv docsEmpty "./v1/file/docs" = [] ∧
      serveResource sampleEnv docsEmpty "/v1/file/docs" "/v1/file/docs" none = [.four04]) ∧
    (dirEntries sampleEnv docsPrivate "./v1/file/docs"
        = [FileInfo.mk "sub" true, FileInfo.mk "b.txt" false] ∧
      serveResource sampleEnv docsPrivate "/v1/file/docs" "/v1/file/docs" (some bob)
        = [.four04]) :=
  ⟨⟨by decide, serveResource_uniform_four04 sampleEnv docsEmpty _ "/v1/file/nothing" none
      (Or.inl ⟨.notExist, rfl, rfl⟩)⟩,
    ⟨by decide, serveResource_uniform_four04 sampleEnv docsEmpty _ "/v1/file/docs" none
      (Or.inr (Or.inl ⟨File.mk "./v1/file/docs" false, FileInfo.mk "docs" true,
        File.mk "./v1/file/docs" true, rfl, rfl, rfl, rfl⟩))⟩,
    ⟨by decide, serveResource_uniform_four04 sampleEnv docsPrivate _ "/v1/file/docs" (some bob)
      (Or.inr (Or.inr ⟨File.mk "./v1/file/docs" false, FileInfo.mk "docs" true,
        [FileInfo.mk "sub" true, FileInfo.mk "b.txt" false],
        File.mk "./v1/file/docs" true, rfl, rfl, rfl, rfl, by
          intro f hf hd
          simp only [List.mem_cons, List.mem_singleton, List.not_mem_nil, or_false] at hf
          rcases hf with rfl | rfl
          · exact absurd hd (by decide)
          · rfl⟩))⟩⟩

/-! ## The file-system calls -/

theorem osOpen_ok {env : Env} {st : State} {name : String} {file : File}
    (h : osOpen env st name = .ok file) :
    file = File.mk name false ∧ st.node name ≠ none := by
  unfold osOpen at h
  cases hf : env.openFault name with
  | some e => simp [hf] at h
  | none =>
    cases hb : belowFile st name with
    | true => simp [hf, hb] at h
    | false =>
      cases hn : st.node name with
      | none => simp [hf, hb, hn] at h
      | some n =>
        simp [hf, hb, hn] at h
        exact ⟨h.symm, by simp⟩

theorem stat_ok {env : Env} {st : State} {f : File} {info : FileInfo}
    (h : f.stat env st = .ok info) :
    ∃ n, st.node f.name = some n ∧ info.isDir = n.isDir := by
  unfold File.stat at h
  cases hf : env.statFault f.name with
  | some e => simp [hf] at h
  | none =>
    cases hn : st.node f.name with
    | none => simp [hf, hn] at h
    | some n =>
      simp [hf, hn] at h
      exact ⟨n, rfl, by rw [← h]⟩

theorem osRemoveStmt_perms (env : Env) (st : State) (p : String) :
    (osRemoveStmt env st p).perms = st.perms := by
  unfold osRemoveStmt osRemove
  cases env.removeFault p with
  | some e => rfl
  | none =>
    cases st.node p with
    | none => rfl
    | some n =>
      cases n with
      | file d => rfl
      | dir => by_cases h : dirEntries env st p = [] <;> simp [h, State.erase]

theorem osRemoveStmt_file {env : Env} {st : State} {p : String} {d : List Nat}
    (hf : env.removeFault p = none) (h : st.node p = some (.file d)) :
    osRemoveStmt env st p = st.erase p := by
  simp [osRemoveStmt, osRemove, hf, h]

theorem osRemoveStmt_fault {env : Env} {st : State} {p : String} {e : Err}
    (hf : env.removeFault p = some e) : osRemoveStmt env st p = st := by
  simp [osRemoveStmt, osRemove, hf]

theorem permissions_congr (env : Env) {s t : State} (h : s.perms = t.perms) (r : String) :
    permissions env s r = permissions env t r := by
  simp [permissions, h]

/-! ## fileDelete: a leaf target -/

/-- C5 (as amended): for an authenticated requester and an existing leaf target
whose permission record is `prm`: for the owner `os.Remove` is called on the
resource and nothing is written; the resource is removed when that call does
not fail and stays, the state unchanged, when it fails (the error is
discarded). A requester who is not the owner and cannot read it gets the
not-found response, the one a path that `os.Open` reports as not existing
gets, and the state is unchanged; a requester who is not the owner and can
read it gets the fail envelope with the owner-permission message, and the
state is unchanged. -/
theorem fileDelete_leaf (env : Env) (st : State) (auth : Auth) (resource : String)
    (file : File) (info : FileInfo) (prm : Permission)
    (hopen : osOpen env st (env.urlPathToFile resource) = .ok file)
    (hstat : file.stat env st = .ok info) (hleaf : info.isDir = false)
    (hprm : permissions env st resource = .ok prm) :
    (env.prmIsOwner prm auth.user = true →
      fileDelete env st (.ok (some auth)) resource
        = ([], osRemoveStmt env st (env.urlPathToFile resource)) ∧
      (env.removeFault (env.urlPathToFile resource) = none →
        fileDelete env st (.ok (some auth)) resource
          = ([], st.erase (env.urlPathToFile resource)) ∧
        (fileDelete env st (.ok (some auth)) resource).2.node (env.urlPathToFile resource)
          = none) ∧
      (∀ e, env.removeFault (env.urlPathToFile resource) = some e →
        fileDelete env st (.ok (some auth)) resource = ([], st))) ∧
    (env.prmIsOwner prm auth.user = false → env.prmCanRead prm (some auth) = false →
      fileDelete env st (.ok (some auth)) resource = ([.four04], st) ∧
      ∀ st0 r0 e, osOpen env st0 (env.urlPathToFile r0) = .error e → e.isNotExist = true →
        (fileDelete env st0 (.ok (some auth)) r0).1
          = (fileDelete env st (.ok (some auth)) resource).1) ∧
    (env.prmIsOwner prm auth.user = false → env.prmCanRead prm (some auth) = true →
      fileDelete env st (.ok (some auth)) resource =
        ([.jsend (JSend.mk .fail [] []
          "You do not have owner permissions on this resource.")], st)) ∧
    (env.prmIsOwner prm auth.user = false →
      (fileDelete env st (.ok (some auth)) resource).2 = st) := by
  obtain ⟨n, hn, hisdir⟩ := stat_ok hstat
  obtain ⟨hfile, -⟩ := osOpen_ok hopen
  subst hfile
  simp only at hn
  have hnode : ∃ d, st.node (env.urlPathToFile resource) = some (.file d) := by
    cases n with
    | file d => exact ⟨d, hn⟩
    | dir => simp [hleaf, Node.isDir] at hisdir
  obtain ⟨d, hd⟩ := hnode
  refine ⟨?_, ?_, ?_, ?_⟩
  · intro ho
    have hmain : fileDelete env st (.ok (some auth)) resource
        = ([], osRemoveStmt env st (env.urlPathToFile resource)) := by
      simp [fileDelete, hopen, hstat, hleaf, hprm, ho]
    rw [hmain]
    refine ⟨rfl, ?_, ?_⟩
    · intro hf
      rw [osRemoveStmt_file hf hd]
      exact ⟨rfl, by simp [State.erase]⟩
    · intro e hf
      rw [osRemoveStmt_fault hf]
  · intro ho hr
    have : fileDelete env st (.ok (some auth)) resource = ([.four04], st) := by
      simp [fileDelete, hopen, hstat, hleaf, hprm, ho, hr]
    rw [this]
    refine ⟨rfl, ?_⟩
    intro st0 r0 e h0 hne
    simp [fileDelete, h0, hne]
  · intro ho hr
    simp [fileDelete, hopen, hstat, hleaf, hprm, ho, hr, notOwnerMsg]
  · intro ho
    cases hr : env.prmCanRead prm (some auth) <;>
      simp [fileDelete, hopen, hstat, hleaf, hprm, ho, hr]

/-- C5 (as amended) on the sample installation: alice removes her `a.txt`; bob
gets not-found for the private `b.txt`, as for a path that does not exist, and
the fail envelope for the public `a.txt`. -/
theorem fileDelete_leaf_witness :
    (fileDelete sampleEnv docsAB (.ok (some alice)) "/v1/file/docs/a.txt").2.node
      "./v1/file/docs/a.txt" = none ∧
    fileDelete sampleEnv docsAB (.ok (some bob)) "/v1/file/docs/b.txt" = ([.four04], docsAB) ∧
    (fileDelete sampleEnv docsAB (.ok (some bob)) "/v1/file/nothing").1
      = (fileDelete sampleEnv docsAB (.ok (some bob)) "/v1/file/docs/b.txt").1 ∧
    fileDelete sampleEnv docsAB (.ok (some bob)) "/v1/file/docs/a.txt" =
      ([.jsend (JSend.mk .fail [] []
        "You do not have owner permissions on this resource.")], docsAB) :=
  ⟨(((fileDelete_leaf sampleEnv docsAB alice "/v1/file/docs/a.txt"
      (File.mk "./v1/file/docs/a.txt" false) (FileInfo.mk "a.txt" false) (publicRead "alice")
      rfl rfl rfl rfl).1 rfl).2.1 rfl).2,
    ((fileDelete_leaf sampleEnv docsAB bob "/v1/file/docs/b.txt"
      (File.mk "./v1/file/docs/b.txt" false) (FileInfo.mk "b.txt" false) (privateOnly "alice")
      rfl rfl rfl rfl).2.1 rfl rfl).1,
    ((fileDelete_leaf sampleEnv docsAB bob "/v1/file/docs/b.txt"
      (File.mk "./v1/file/docs/b.txt" false) (FileInfo.mk "b.txt" false) (privateOnly "alice")
      rfl rfl rfl rfl).2.1 rfl rfl).2 docsAB "/v1/file/nothing" .notExist rfl rfl,
    (fileDelete_leaf sampleEnv docsAB bob "/v1/file/docs/a.txt"
      (File.mk "./v1/file/docs/a.txt" false) (FileInfo.mk "a.txt" false) (publicRead "alice")
      rfl rfl rfl rfl).2.2.1 rfl rfl⟩

/-- C5 (counterexample): on a system that refuses `os.Remove` of `a.txt`, alice,
its owner, deletes it: nothing is written to the response and the resource is
still in the tree, so the owner's request did not remove it. And the missing
path `/v1/file/docs/b.txt/x`, below a regular file, gets the error response of
`errHandled`, not the not-found response. -/
theorem fileDelete_owner_remove_fails :
    sampleEnv.prmIsOwner (publicRead "alice") alice.user = true ∧
    docsAB.perms "/v1/file/docs/a.txt" = some (publicRead "alice") ∧
    (fileDelete (removeDenied "./v1/file/docs/a.txt") docsAB (.ok (some alice))
      "/v1/file/docs/a.txt").1 = [] ∧
    (fileDelete (removeDenied "./v1/file/docs/a.txt") docsAB (.ok (some alice))
      "/v1/file/docs/a.txt").2.node "./v1/file/docs/a.txt" = some (.file [97]) ∧
    docsAB.node (sampleEnv.urlPathToFile "/v1/file/docs/b.txt/x") = none ∧
    (fileDelete sampleEnv docsAB (.ok (some bob)) "/v1/file/docs/b.txt/x").1
      = [.error .notDir] := by
  decide

/-! ## fileDelete: a directory target -/

theorem eraseKeys_nil (st : State) : st.eraseKeys [] = st := by
  cases st
  simp [State.eraseKeys]

theorem osRemoveStmt_eraseKeys (env : Env) (st : State) (ks : List String) (p : String)
    (d : List Nat) (hf : env.removeFault p = none) (h : st.node p = some (.file d)) :
    osRemoveStmt env (st.eraseKeys ks) p = st.eraseKeys (ks ++ [p]) := by
  by_cases hp : p ∈ ks
  · have h1 : (st.eraseKeys ks).node p = none := by simp [State.eraseKeys, hp]
    have h2 : osRemoveStmt env (st.eraseKeys ks) p = st.eraseKeys ks := by
      simp [osRemoveStmt, osRemove, hf, h1]
    rw [h2]
    simp only [State.eraseKeys]
    congr 1
    funext k
    by_cases hk : k = p
    · subst hk
      simp [hp]
    · simp [hk]
  · have h1 : (st.eraseKeys ks).node p = some (.file d) := by simp [State.eraseKeys, hp, h]
    rw [osRemoveStmt_file hf h1]
    simp only [State.eraseKeys, State.erase]
    congr 1
    funext k
    by_cases hk : k = p
    · subst hk
      simp
    · simp [hk]

theorem mem_dirEntries {env : Env} {st : State} {d : String} {f : FileInfo}
    (h : f ∈ dirEntries env st d) :
    ∃ n, st.node (env.pathJoin d f.name) = some n ∧ f.isDir = n.isDir ∧
      baseName (env.pathJoin d f.name) = f.name ∧ env.pathJoin d f.name ≠ d := by
  unfold dirEntries at h
  rw [List.mem_filterMap] at h
  obtain ⟨k, -, hk⟩ := h
  by_cases hc : env.pathJoin d (baseName k) = k ∧ k ≠ d
  · rw [if_pos hc] at hk
    cases hn : st.node k with
    | none => simp [hn] at hk
    | some n =>
      simp [hn] at hk
      subst hk
      simp only
      rw [hc.1]
      exact ⟨n, hn, rfl, rfl, hc.2⟩
  · rw [if_neg hc] at hk
    exact absurd hk (by simp)

theorem dirEntries_eraseKeys (env : Env) (st : State) (ks : List String) (d : String) :
    dirEntries env (st.eraseKeys ks) d
      = (dirEntries env st d).filter (fun f => decide (env.pathJoin d f.name ∉ ks)) := by
  unfold dirEntries
  have horder : (st.eraseKeys ks).order = st.order := rfl
  rw [horder]
  induction st.order with
  | nil => rfl
  | cons k rest ih =>
    rw [List.filterMap_cons, List.filterMap_cons, ih]
    by_cases hc : env.pathJoin d (baseName k) = k ∧ k ≠ d
    · rw [if_pos hc, if_pos hc]
      by_cases hk : k ∈ ks
      · have h1 : (st.eraseKeys ks).node k = none := by simp [State.eraseKeys, hk]
        rw [h1]
        cases hn : st.node k with
        | none => simp
        | some n => simp [List.filter_cons, hc.1, hk]
      · have h1 : (st.eraseKeys ks).node k = st.node k := by simp [State.eraseKeys, hk]
        rw [h1]
        cases hn : st.node k with
        | none => simp
        | some n => simp [List.filter_cons, hc.1, hk]
    · rw [if_neg hc, if_neg hc]

theorem deleteLoop_spec (env : Env) (st : State) (auth : Auth) (resource dir : String)
    (files : List FileInfo) :
    ∀ (ks : List String) (fl : List Properties) (errs : List ErrorItem) (status : Status),
    (∀ f ∈ files, f.isDir = false →
      ∃ prm, permissions env st (env.pathJoin resource f.name) = .ok prm) →
    (∀ f ∈ files, f.isDir = false → ∃ d, st.node (env.pathJoin dir f.name) = some (.file d)) →
    deleteLoop env auth resource dir files (DelAcc.mk (st.eraseKeys ks) fl errs status)
      = .ok (DelAcc.mk
          (st.eraseKeys (ks ++ (files.filter (removedEntry env st auth resource dir)).map
            (fun f => env.pathJoin dir f.name)))
          (fl ++ (files.filter (ownsEntry env st auth resource)).map (childProps env resource))
          (errs ++ (files.filter (deniedEntry env st auth resource)).map
            (fun f => ErrorItem.mk notOwnerMsg (childProps env resource f)))
          (if files.filter (deniedEntry env st auth resource) = [] then status else .fail)) := by
  induction files with
  | nil => intro ks fl errs status _ _; simp [deleteLoop]
  | cons f rest ih =>
    intro ks fl errs status hperm hnode
    have hperm1 : ∀ g ∈ rest, g.isDir = false →
        ∃ prm, permissions env st (env.pathJoin resource g.name) = .ok prm :=
      fun g hg => hperm g (List.mem_cons_of_mem _ hg)
    have hnode1 : ∀ g ∈ rest, g.isDir = false →
        ∃ d, st.node (env.pathJoin dir g.name) = some (.file d) :=
      fun g hg => hnode g (List.mem_cons_of_mem _ hg)
    cases hd : f.isDir with
    | true =>
      have h1 : ownsEntry env st auth resource f = false := by simp [ownsEntry, hd]
      have h2 : deniedEntry env st auth resource f = false := by simp [deniedEntry, hd]
      have h3 : removedEntry env st auth resource dir f = false := by simp [removedEntry, h1]
      simp [deleteLoop, hd, List.filter_cons, h1, h2, h3, ih ks fl errs status hperm1 hnode1]
    | false =>
      obtain ⟨prm, hprm⟩ := hperm f (List.mem_cons_self _ _) hd
      obtain ⟨d, hfile⟩ := hnode f (List.mem_cons_self _ _) hd
      have hprm1 : permissions env (st.eraseKeys ks) (env.pathJoin resource f.name) = .ok prm := by
        rw [permissions_congr env (rfl : (st.eraseKeys ks).perms = st.perms)]
        exact hprm
      cases ho : env.prmIsOwner prm auth.user with
      | true =>
        have h1 : ownsEntry env st auth resource f = true := by simp [ownsEntry, hd, hprm, ho]
        have h2 : deniedEntry env st auth resource f = false := by
          simp [deniedEntry, hd, hprm, ho]
        cases hrf : env.removeFault (env.pathJoin dir f.name) with
        | none =>
          have h3 : removedEntry env st auth resource dir f = true := by
            simp [removedEntry, h1, hrf]
          simp only [deleteLoop, hd, hprm1, ho, List.filter_cons, h1, h2, h3]
          simp only [osRemoveStmt_eraseKeys env st ks _ d hrf hfile]
          rw [ih (ks ++ [env.pathJoin dir f.name]) _ errs status hperm1 hnode1]
          simp [childProps]
        | some e =>
          have h3 : removedEntry env st auth resource dir f = false := by
            simp [removedEntry, h1, hrf]
          simp only [deleteLoop, hd, hprm1, ho, List.filter_cons, h1, h2, h3]
          simp only [osRemoveStmt_fault hrf]
          rw [ih ks _ errs status hperm1 hnode1]
          simp [childProps]
      | false =>
        have h1 : ownsEntry env st auth resource f = false := by simp [ownsEntry, hd, hprm, ho]
        have h3 : removedEntry env st auth resource dir f = false := by simp [removedEntry, h1]
        cases hr : env.prmCanRead prm (some auth) with
        | false =>
          have h2 : deniedEntry env st auth resource f = false := by
            simp [deniedEntry, hd, hprm, ho, hr]
          simp [deleteLoop, hd, hprm1, ho, hr, List.filter_cons, h1, h2, h3,
            ih ks fl errs status hperm1 hnode1]
        | true =>
          have h2 : deniedEntry env st auth resource f = true := by
            simp [deniedEntry, hd, hprm, ho, hr]
          simp only [deleteLoop, hd, hprm1, ho, hr, List.filter_cons, h1, h2, h3]
          simp [ih ks fl _ .fail hperm1 hnode1, childProps]

theorem readdir_ok {env : Env} {st : State} {name : String} {files : List FileInfo}
    {file1 : File} (h : (File.mk name false).readdir env st = (.ok files, file1)) :
    env.readdirFault name = none ∧ st.node name = some .dir ∧
      files = dirEntries env st name ∧ file1 = File.mk name true := by
  unfold File.readdir at h
  simp only at h
  cases hf : env.readdirFault name with
  | some e => simp [hf] at h
  | none =>
    cases hn : st.node name with
    | none => simp [hf, hn] at h
    | some n =>
      cases n with
      | file d => simp [hf, hn] at h
      | dir =>
        simp [hf, hn] at h
        exact ⟨rfl, rfl, h.1.symm, h.2.symm⟩

theorem entry_is_file {env : Env} {st : State} {d : String} {f : FileInfo}
    (h : f ∈ dirEntries env st d) (hd : f.isDir = false) :
    ∃ c, st.node (env.pathJoin d f.name) = some (.file c) := by
  obtain ⟨n, hn, hisdir, -, -⟩ := mem_dirEntries h
  cases n with
  | file c => exact ⟨c, hn⟩
  | dir => simp [hd, Node.isDir] at hisdir

theorem entry_key_mem_iff (env : Env) (st : State) (d : String) (P : FileInfo → Bool)
    (f : FileInfo) (hf : f ∈ dirEntries env st d) :
    env.pathJoin d f.name ∈ ((dirEntries env st d).filter P).map
        (fun g => env.pathJoin d g.name)
      ↔ P f = true := by
  constructor
  · intro h
    rw [List.mem_map] at h
    obtain ⟨g, hg, hkey⟩ := h
    rw [List.mem_filter] at hg
    obtain ⟨n1, hn1, hd1, hb1, -⟩ := mem_dirEntries hg.1
    obtain ⟨n2, hn2, hd2, hb2, -⟩ := mem_dirEntries hf
    have hname : g.name = f.name := by rw [← hb1, ← hb2, hkey]
    have hnode : n1 = n2 := by
      rw [hkey, hn2] at hn1
      exact (Option.some.inj hn1).symm
    have hgf : g = f := by
      cases g
      cases f
      simp only [FileInfo.mk.injEq]
      simp only at hname hd1 hd2
      exact ⟨hname, by rw [hd1, hd2, hnode]⟩
    rw [← hgf]
    exact hg.2
  · intro h
    rw [List.mem_map]
    exact ⟨f, List.mem_filter.mpr ⟨hf, h⟩, rfl⟩

theorem dir_not_entry_key (env : Env) (st : State) (d : String) (P : FileInfo → Bool) :
    d ∉ ((dirEntries env st d).filter P).map (fun g => env.pathJoin d g.name) := by
  intro h
  rw [List.mem_map] at h
  obtain ⟨g, hg, hkey⟩ := h
  obtain ⟨-, -, -, -, hne⟩ := mem_dirEntries (List.mem_filter.mp hg).1
  exact hne hkey

theorem dirEntries_after_loop (env : Env) (st : State) (d : String) (P : FileInfo → Bool) :
    dirEntries env (st.eraseKeys (((dirEntries env st d).filter P).map
        (fun g => env.pathJoin d g.name))) d
      = (dirEntries env st d).filter (fun f => !P f) := by
  rw [dirEntries_eraseKeys]
  apply List.filter_congr
  intro f hf
  have h := entry_key_mem_iff env st d P f hf
  cases ho : P f with
  | true => simp [h.mpr ho]
  | false =>
    have : ¬ env.pathJoin d f.name ∈ ((dirEntries env st d).filter P).map
        (fun g => env.pathJoin d g.name) := by
      intro hm
      rw [h.mp hm] at ho
      exact absurd ho (by simp)
    simp [this]

theorem dirEntries_erase_self (env : Env) (st : State) (d : String) :
    dirEntries env (st.erase d) d = dirEntries env st d := by
  have h := dirEntries_eraseKeys env st [d] d
  have h1 : st.eraseKeys [d] = st.erase d := by
    simp [State.eraseKeys, State.erase]
  rw [h1] at h
  rw [h]
  apply List.filter_eq_self.mpr
  intro f hf
  obtain ⟨-, -, -, -, hne⟩ := mem_dirEntries hf
  simp [hne]

/-- The whole effect of `fileDelete` on a directory target whose permission
lookups succeed. -/
theorem fileDelete_dir_eq (env : Env) (st : State) (auth : Auth) (resource : String)
    (file : File) (info : FileInfo) (files : List FileInfo) (file1 : File)
    (hopen : osOpen env st (env.urlPathToFile resource) = .ok file)
    (hstat : file.stat env st = .ok info) (hdir : info.isDir = true)
    (hls : file.readdir env st = (.ok files, file1))
    (hperm : ∀ f ∈ files, f.isDir = false →
      ∃ prm, permissions env st (env.pathJoin resource f.name) = .ok prm) :
    files = dirEntries env st (env.urlPathToFile resource) ∧
    st.node (env.urlPathToFile resource) = some .dir ∧
    fileDelete env st (.ok (some auth)) resource =
      ([.jsend (JSend.mk
          (if files.filter (deniedEntry env st auth resource) = [] then .success else .fail)
          ((files.filter (ownsEntry env st auth resource)).map (childProps env resource))
          ((files.filter (deniedEntry env st auth resource)).map
            (fun f => ErrorItem.mk notOwnerMsg (childProps env resource f)))
          "")],
        if files.filter
              (fun f => !removedEntry env st auth resource (env.urlPathToFile resource) f) = [] ∧
            env.removeFault (env.urlPathToFile resource) = none then
          (st.eraseKeys ((files.filter
              (removedEntry env st auth resource (env.urlPathToFile resource))).map
            (fun f => env.pathJoin (env.urlPathToFile resource) f.name))).erase
              (env.urlPathToFile resource)
        else
          st.eraseKeys ((files.filter
              (removedEntry env st auth resource (env.urlPathToFile resource))).map
            (fun f => env.pathJoin (env.urlPathToFile resource) f.name))) := by
  obtain ⟨hfile, -⟩ := osOpen_ok hopen
  subst hfile
  obtain ⟨hfault, hnode, hfiles, hfile1⟩ := readdir_ok hls
  subst hfile1
  refine ⟨hfiles, hnode, ?_⟩
  have hfilenode : ∀ f ∈ files, f.isDir = false →
      ∃ c, st.node (env.pathJoin (env.urlPathToFile resource) f.name) = some (.file c) := by
    intro f hf hd
    rw [hfiles] at hf
    exact entry_is_file hf hd
  have hloop := deleteLoop_spec env st auth resource (env.urlPathToFile resource) files
    [] [] [] .success hperm hfilenode
  rw [eraseKeys_nil] at hloop
  simp only [List.nil_append] at hloop
  have hnotin : env.urlPathToFile resource ∉
      (files.filter (removedEntry env st auth resource (env.urlPathToFile resource))).map
        (fun f => env.pathJoin (env.urlPathToFile resource) f.name) := by
    rw [hfiles]
    exact dir_not_entry_key env st _ _
  have hnode2 : (st.eraseKeys ((files.filter
      (removedEntry env st auth resource (env.urlPathToFile resource))).map
      (fun f => env.pathJoin (env.urlPathToFile resource) f.name))).node
        (env.urlPathToFile resource) = some .dir := by
    simp only [State.eraseKeys, if_neg hnotin, hnode]
  have hls2 : (File.mk (env.urlPathToFile resource) true).readdir env
      (st.eraseKeys ((files.filter
        (removedEntry env st auth resource (env.urlPathToFile resource))).map
        (fun f => env.pathJoin (env.urlPathToFile resource) f.name)))
      = (.ok [], File.mk (env.urlPathToFile resource) true) := by
    simp [File.readdir, hfault, hnode2]
  have hrest : dirEntries env (st.eraseKeys ((files.filter
      (removedEntry env st auth resource (env.urlPathToFile resource))).map
      (fun f => env.pathJoin (env.urlPathToFile resource) f.name))) (env.urlPathToFile resource)
      = files.filter
        (fun f => !removedEntry env st auth resource (env.urlPathToFile resource) f) := by
    rw [hfiles]
    exact dirEntries_after_loop env st _ _
  simp only [fileDelete, hopen, hstat, hdir, hls, hloop, hls2, Bool.not_true,
    Bool.false_eq_true, if_false, List.length_nil, if_true]
  cases hrf : env.removeFault (env.urlPathToFile resource) with
  | some e => simp [osRemoveStmt, osRemove, hrf]
  | none =>
    by_cases hrem : files.filter
        (fun f => !removedEntry env st auth resource (env.urlPathToFile resource) f) = []
    · simp [osRemoveStmt, osRemove, hrf, hnode2, hrest, hrem]
    · simp [osRemoveStmt, osRemove, hrf, hnode2, hrest, hrem]

/-- After `fileDelete` on a directory target, the node of a child: gone when
its `os.Remove` was called and did not fail, unchanged otherwise. -/
theorem fileDelete_dir_child (env : Env) (st : State) (auth : Auth) (resource : String)
    (file : File) (info : FileInfo) (files : List FileInfo) (file1 : File)
    (hopen : osOpen env st (env.urlPathToFile resource) = .ok file)
    (hstat : file.stat env st = .ok info) (hdir : info.isDir = true)
    (hls : file.readdir env st = (.ok files, file1))
    (hperm : ∀ f ∈ files, f.isDir = false →
      ∃ prm, permissions env st (env.pathJoin resource f.name) = .ok prm)
    (f : FileInfo) (hf : f ∈ files) :
    (fileDelete env st (.ok (some auth)) resource).2.node
        (env.pathJoin (env.urlPathToFile resource) f.name)
      = if removedEntry env st auth resource (env.urlPathToFile resource) f = true then none
        else st.node (env.pathJoin (env.urlPathToFile resource) f.name) := by
  obtain ⟨hfiles, -, heq⟩ :=
    fileDelete_dir_eq env st auth resource file info files file1 hopen hstat hdir hls hperm
  have hst := congrArg Prod.snd heq
  simp only at hst
  rw [hst]
  have hf1 : f ∈ dirEntries env st (env.urlPathToFile resource) := hfiles ▸ hf
  have hiff := entry_key_mem_iff env st (env.urlPathToFile resource)
    (removedEntry env st auth resource (env.urlPathToFile resource)) f hf1
  rw [← hfiles] at hiff
  by_cases hr : removedEntry env st auth resource (env.urlPathToFile resource) f = true
  · rw [if_pos hr]
    have hkey := hiff.mpr hr
    by_cases hc : files.filter
        (fun f => !removedEntry env st auth resource (env.urlPathToFile resource) f) = [] ∧
        env.removeFault (env.urlPathToFile resource) = none
    · rw [if_pos hc]
      simp only [State.erase, State.eraseKeys, if_pos hkey]
      split <;> rfl
    · rw [if_neg hc]
      simp only [State.eraseKeys, if_pos hkey]
  · rw [if_neg hr]
    have hkey : env.pathJoin (env.urlPathToFile resource) f.name ∉
        (files.filter (removedEntry env st auth resource (env.urlPathToFile resource))).map
          (fun f => env.pathJoin (env.urlPathToFile resource) f.name) :=
      fun h => hr (hiff.mp h)
    have hrem : files.filter
        (fun f => !removedEntry env st auth resource (env.urlPathToFile resource) f) ≠ [] := by
      intro h
      have : f ∈ files.filter
          (fun f => !removedEntry env st auth resource (env.urlPathToFile resource) f) :=
        List.mem_filter.mpr ⟨hf, by simpa using hr⟩
      rw [h] at this
      exact absurd this (List.not_mem_nil _)
    rw [if_neg (fun h => hrem h.1)]
    simp only [State.eraseKeys, if_neg hkey]

/-- C4 (as amended): for an authenticated requester and a directory target all
of whose child permission lookups succeed, the envelope of `fileDelete` is:
`Data` the file children owned by the requester, in enumeration order;
`Errors` the file children not owned and readable, each with the
owner-permission message; `Status` fail exactly when `Errors` is not empty,
success otherwise. On every owned file child `os.Remove` was called: the child
is gone from the tree when that call did not fail and is still there,
unchanged, when it failed (the error is discarded). Every other file child (an
error entry or silently skipped) is still there, unchanged; sub-directories
are in neither list. -/
theorem fileDelete_dir_envelope (env : Env) (st : State) (auth : Auth) (resource : String)
    (file : File) (info : FileInfo) (files : List FileInfo) (file1 : File)
    (hopen : osOpen env st (env.urlPathToFile resource) = .ok file)
    (hstat : file.stat env st = .ok info) (hdir : info.isDir = true)
    (hls : file.readdir env st = (.ok files, file1))
    (hperm : ∀ f ∈ files, f.isDir = false →
      ∃ prm, permissions env st (env.pathJoin resource f.name) = .ok prm) :
    (fileDelete env st (.ok (some auth)) resource).1 =
      [.jsend (JSend.mk
        (if files.filter (deniedEntry env st auth resource) = [] then .success else .fail)
        ((files.filter (ownsEntry env st auth resource)).map (childProps env resource))
        ((files.filter (deniedEntry env st auth resource)).map
          (fun f => ErrorItem.mk "You do not have owner permissions on this resource."
            (childProps env resource f)))
        "")] ∧
    (∀ f ∈ files, ownsEntry env st auth resource f = true →
      (env.removeFault (env.pathJoin (env.urlPathToFile resource) f.name) = none →
        (fileDelete env st (.ok (some auth)) resource).2.node
          (env.pathJoin (env.urlPathToFile resource) f.name) = none) ∧
      (∀ e, env.removeFault (env.pathJoin (env.urlPathToFile resource) f.name) = some e →
        (fileDelete env st (.ok (some auth)) resource).2.node
            (env.pathJoin (env.urlPathToFile resource) f.name)
          = st.node (env.pathJoin (env.urlPathToFile resource) f.name))) ∧
    (∀ f ∈ files, f.isDir = false → ownsEntry env st auth resource f = false →
      (∃ c, st.node (env.pathJoin (env.urlPathToFile resource) f.name) = some (.file c)) ∧
      (fileDelete env st (.ok (some auth)) resource).2.node
          (env.pathJoin (env.urlPathToFile resource) f.name)
        = st.node (env.pathJoin (env.urlPathToFile resource) f.name)) ∧
    (∀ f ∈ files, f.isDir = true →
      ownsEntry env st auth resource f = false ∧ deniedEntry env st auth resource f = false) := by
  have hchild := fileDelete_dir_child env st auth resource file info files file1
    hopen hstat hdir hls hperm
  obtain ⟨hfiles, -, heq⟩ :=
    fileDelete_dir_eq env st auth resource file info files file1 hopen hstat hdir hls hperm
  refine ⟨by rw [heq]; rfl, ?_, ?_, ?_⟩
  · intro f hf ho
    constructor
    · intro hrf
      rw [hchild f hf, if_pos (by simp [removedEntry, ho, hrf])]
    · intro e hrf
      rw [hchild f hf, if_neg (by simp [removedEntry, ho, hrf])]
  · intro f hf hd ho
    have hf1 : f ∈ dirEntries env st (env.urlPathToFile resource) := hfiles ▸ hf
    refine ⟨entry_is_file hf1 hd, ?_⟩
    rw [hchild f hf, if_neg (by simp [removedEntry, ho])]
  · intro f _ hd
    simp [ownsEntry, deniedEntry, hd]

/-- C4 (as amended) on the sample directory `shared`, deleted by alice: `a.txt`
is reported in `Data` and removed, `b.txt` is reported in `Errors` and stays,
`c.txt` stays unreported. -/
theorem fileDelete_dir_envelope_witness :
    (fileDelete sampleEnv sharedDir (.ok (some alice)) "/v1/file/shared").1 =
      [.jsend (JSend.mk .fail
        [Properties.mk "a.txt" "/v1/file/shared/a.txt"]
        [ErrorItem.mk "You do not have owner permissions on this resource."
          (Properties.mk "b.txt" "/v1/file/shared/b.txt")]
        "")] ∧
    (fileDelete sampleEnv sharedDir (.ok (some alice)) "/v1/file/shared").2.node
      "./v1/file/shared/a.txt" = none ∧
    (fileDelete sampleEnv sharedDir (.ok (some alice)) "/v1/file/shared").2.node
      "./v1/file/shared/b.txt" = some (.file [98]) ∧
    (fileDelete sampleEnv sharedDir (.ok (some alice)) "/v1/file/shared").2.node
      "./v1/file/shared/c.txt" = some (.file [99]) := by
  have h := fileDelete_dir_envelope sampleEnv sharedDir alice "/v1/file/shared"
    (File.mk "./v1/file/shared" false) (FileInfo.mk "shared" true)
    [FileInfo.mk "a.txt" false, FileInfo.mk "b.txt" false, FileInfo.mk "sub" true,
      FileInfo.mk "c.txt" false]
    (File.mk "./v1/file/shared" true) rfl rfl rfl rfl (by
      intro f hf hd
      simp only [List.mem_cons, List.mem_singleton, List.not_mem_nil, or_false] at hf
      rcases hf with rfl | rfl | rfl | rfl
      · exact ⟨_, rfl⟩
      · exact ⟨_, rfl⟩
      · exact absurd hd (by decide)
      · exact ⟨_, rfl⟩)
  refine ⟨h.1.trans (by decide), ?_, ?_, ?_⟩
  · exact (h.2.1 (FileInfo.mk "a.txt" false) (by decide) (by decide)).1 rfl
  · exact ((h.2.2.1 (FileInfo.mk "b.txt" false) (by decide) rfl (by decide)).2).trans
      (by decide)
  · exact ((h.2.2.1 (FileInfo.mk "c.txt" false) (by decide) rfl (by decide)).2).trans
      (by decide)

/-- C4 (counterexample): on a system that refuses `os.Remove` of `a.txt`, alice
deletes the directory `shared`: her `a.txt` is reported in `Data` and is still
in the tree. -/
theorem fileDelete_data_not_removed :
    ownsEntry sampleEnv sharedDir alice "/v1/file/shared" (FileInfo.mk "a.txt" false) = true ∧
    (fileDelete (removeDenied "./v1/file/shared/a.txt") sharedDir (.ok (some alice))
      "/v1/file/shared").1 =
      [.jsend (JSend.mk .fail
        [Properties.mk "a.txt" "/v1/file/shared/a.txt"]
        [ErrorItem.mk "You do not have owner permissions on this resource."
          (Properties.mk "b.txt" "/v1/file/shared/b.txt")]
        "")] ∧
    (fileDelete (removeDenied "./v1/file/shared/a.txt") sharedDir (.ok (some alice))
      "/v1/file/shared").2.node "./v1/file/shared/a.txt" = some (.file [97]) := by
  decide

/-- C6 (as amended): after `fileDelete` on a directory target whose child
permission lookups succeed, the entries left under its path are exactly the
children that were not deleted, in order: the files the requester does not
own, the owned files whose `os.Remove` failed, and the sub-directories. The
directory is gone from the tree exactly when no child is left and the
`os.Remove` of the directory does not fail (its error is discarded); otherwise
the directory is still there. -/
theorem fileDelete_dir_cleanup (env : Env) (st : State) (auth : Auth) (resource : String)
    (file : File) (info : FileInfo) (files : List FileInfo) (file1 : File)
    (hopen : osOpen env st (env.urlPathToFile resource) = .ok file)
    (hstat : file.stat env st = .ok info) (hdir : info.isDir = true)
    (hls : file.readdir env st = (.ok files, file1))
    (hperm : ∀ f ∈ files, f.isDir = false →
      ∃ prm, permissions env st (env.pathJoin resource f.name) = .ok prm) :
    ((fileDelete env st (.ok (some auth)) resource).2.node (env.urlPathToFile resource) = none
      ↔ (files.filter
            (fun f => !removedEntry env st auth resource (env.urlPathToFile resource) f) = [] ∧
          env.removeFault (env.urlPathToFile resource) = none)) ∧
    (¬ (files.filter
            (fun f => !removedEntry env st auth resource (env.urlPathToFile resource) f) = [] ∧
          env.removeFault (env.urlPathToFile resource) = none) →
      (fileDelete env st (.ok (some auth)) resource).2.node (env.urlPathToFile resource)
        = some .dir) ∧
    dirEntries env (fileDelete env st (.ok (some auth)) resource).2 (env.urlPathToFile resource)
      = files.filter
        (fun f => !removedEntry env st auth resource (env.urlPathToFile resource) f) := by
  obtain ⟨hfiles, hnode, heq⟩ :=
    fileDelete_dir_eq env st auth resource file info files file1 hopen hstat hdir hls hperm
  rw [heq]
  have hnotin : env.urlPathToFile resource ∉
      (files.filter (removedEntry env st auth resource (env.urlPathToFile resource))).map
        (fun f => env.pathJoin (env.urlPathToFile resource) f.name) := by
    rw [hfiles]
    exact dir_not_entry_key env st _ _
  have hrest : dirEntries env (st.eraseKeys ((files.filter
      (removedEntry env st auth resource (env.urlPathToFile resource))).map
      (fun f => env.pathJoin (env.urlPathToFile resource) f.name))) (env.urlPathToFile resource)
      = files.filter
        (fun f => !removedEntry env st auth resource (env.urlPathToFile resource) f) := by
    rw [hfiles]
    exact dirEntries_after_loop env st _ _
  by_cases hrem : files.filter
      (fun f => !removedEntry env st auth resource (env.urlPathToFile resource) f) = [] ∧
      env.removeFault (env.urlPathToFile resource) = none
  · simp only [if_pos hrem]
    refine ⟨⟨fun _ => hrem, fun _ => by simp [State.erase]⟩, fun h => absurd hrem h, ?_⟩
    rw [dirEntries_erase_self, hrest]
  · simp only [if_neg hrem]
    have hn : (st.eraseKeys ((files.filter
        (removedEntry env st auth resource (env.urlPathToFile resource))).map
        (fun f => env.pathJoin (env.urlPathToFile resource) f.name))).node
          (env.urlPathToFile resource) = some .dir := by
      simp only [State.eraseKeys, if_neg hnotin, hnode]
    refine ⟨⟨fun h => ?_, fun h => absurd h hrem⟩, fun _ => hn, hrest⟩
    rw [hn] at h
    exact absurd h (by simp)

/-- C6 (as amended) on the sample installation: the directory `mine`, all of
alice, is removed with its files; the directory `shared` stays with the three
children alice could not delete. -/
theorem fileDelete_dir_cleanup_witness :
    ((fileDelete sampleEnv mineDir (.ok (some alice)) "/v1/file/mine").2.node "./v1/file/mine"
      = none) ∧
    dirEntries sampleEnv (fileDelete sampleEnv mineDir (.ok (some alice)) "/v1/file/mine").2
      "./v1/file/mine" = [] ∧
    ((fileDelete sampleEnv sharedDir (.ok (some alice)) "/v1/file/shared").2.node
      "./v1/file/shared" = some .dir) ∧
    dirEntries sampleEnv (fileDelete sampleEnv sharedDir (.ok (some alice)) "/v1/file/shared").2
      "./v1/file/shared"
      = [FileInfo.mk "b.txt" false, FileInfo.mk "sub" true, FileInfo.mk "c.txt" false] := by
  have h1 := fileDelete_dir_cleanup sampleEnv mineDir alice "/v1/file/mine"
    (File.mk "./v1/file/mine" false) (FileInfo.mk "mine" true)
    [FileInfo.mk "a.txt" false, FileInfo.mk "b.txt" false]
    (File.mk "./v1/file/mine" true) rfl rfl rfl rfl (by
      intro f hf hd
      simp only [List.mem_cons, List.mem_singleton, List.not_mem_nil, or_false] at hf
      rcases hf with rfl | rfl
      · exact ⟨_, rfl⟩
      · exact ⟨_, rfl⟩)
  have h2 := fileDelete_dir_cleanup sampleEnv sharedDir alice "/v1/file/shared"
    (File.mk "./v1/file/shared" false) (FileInfo.mk "shared" true)
    [FileInfo.mk "a.txt" false, FileInfo.mk "b.txt" false, FileInfo.mk "sub" true,
      FileInfo.mk "c.txt" false]
    (File.mk "./v1/file/shared" true) rfl rfl rfl rfl (by
      intro f hf hd
      simp only [List.mem_cons, List.mem_singleton, List.not_mem_nil, or_false] at hf
      rcases hf with rfl | rfl | rfl | rfl
      · exact ⟨_, rfl⟩
      · exact ⟨_, rfl⟩
      · exact absurd hd (by decide)
      · exact ⟨_, rfl⟩)
  exact ⟨h1.1.mpr ⟨by decide, rfl⟩, h1.2.2.trans (by decide), h2.2.1 (by decide),
    h2.2.2.trans (by decide)⟩

/-- C6 (counterexample): on a system that refuses `os.Remove` of the directory
`mine`, alice deletes it: both files, hers, are removed, no child is left, and
the directory is still in the tree. -/
theorem fileDelete_empty_dir_stays :
    dirEntries (removeDenied "./v1/file/mine")
      (fileDelete (removeDenied "./v1/file/mine") mineDir (.ok (some alice))
        "/v1/file/mine").2 "./v1/file/mine" = [] ∧
    (fileDelete (removeDenied "./v1/file/mine") mineDir (.ok (some alice))
      "/v1/file/mine").2.node "./v1/file/mine/a.txt" = none ∧
    (fileDelete (removeDenied "./v1/file/mine") mineDir (.ok (some alice))
      "/v1/file/mine").2.node "./v1/file/mine/b.txt" = none ∧
    (fileDelete (removeDenied "./v1/file/mine") mineDir (.ok (some alice))
      "/v1/file/mine").2.node "./v1/file/mine" = some .dir ∧
    ¬ ((fileDelete (removeDenied "./v1/file/mine") mineDir (.ok (some alice))
        "/v1/file/mine").2.node "./v1/file/mine" = none ↔
      dirEntries (removeDenied "./v1/file/mine")
        (fileDelete (removeDenied "./v1/file/mine") mineDir (.ok (some alice))
          "/v1/file/mine").2 "./v1/file/mine" = []) := by
  decide

/-! ## fileDelete and the permission-record store -/

theorem deleteLoop_perms (env : Env) (auth : Auth) (resource dir : String)
    (files : List FileInfo) :
    ∀ acc : DelAcc,
      match deleteLoop env auth resource dir files acc with
      | .ok a => a.st.perms = acc.st.perms
      | .error r => r.2.perms = acc.st.perms := by
  induction files with
  | nil => intro acc; simp [deleteLoop]
  | cons f rest ih =>
    intro acc
    unfold deleteLoop
    cases hd : f.isDir with
    | true => simpa using ih acc
    | false =>
      simp only [Bool.not_false, if_true]
      cases hp : permissions env acc.st (env.pathJoin resource f.name) with
      | error e => simp
      | ok prm =>
        simp only
        cases ho : env.prmIsOwner prm auth.user with
        | true =>
          simp only [if_true]
          have h := ih { acc with
            st := osRemoveStmt env acc.st (env.pathJoin dir f.name)
            fileList := acc.fileList ++ [Properties.mk f.name (env.pathJoin resource f.name)] }
          simp only [osRemoveStmt_perms] at h
          exact h
        | false =>
          cases hr : env.prmCanRead prm (some auth) with
          | false => simpa using ih acc
          | true =>
            simpa using ih { acc with
              status := .fail
              errors := acc.errors ++
                [ErrorItem.mk notOwnerMsg (Properties.mk f.name (env.pathJoin resource f.name))] }

/-- C10 (as amended): `fileDelete` never changes the permission-record store:
whatever the requester and the target, every path has after the call exactly
the permission record it had before, the paths of the resources the call
removed included. -/
theorem fileDelete_keeps_perms (env : Env) (st : State) (authRes : Except Err (Option Auth))
    (resource : String) :
    (fileDelete env st authRes resource).2.perms = st.perms := by
  unfold fileDelete
  cases authRes with
  | error e => rfl
  | ok a =>
    cases a with
    | none => rfl
    | some auth =>
      simp only
      cases osOpen env st (env.urlPathToFile resource) with
      | error e => simp only; split <;> rfl
      | ok file =>
        simp only
        cases file.stat env st with
        | error e => rfl
        | ok info =>
          simp only
          cases info.isDir with
          | false =>
            simp only [Bool.not_false, if_true]
            cases permissions env st resource with
            | error e => rfl
            | ok prm =>
              simp only
              cases env.prmIsOwner prm auth.user with
              | false =>
                simp only [Bool.not_false, if_true]
                split <;> rfl
              | true =>
                simp only [Bool.not_true, Bool.false_eq_true, if_false]
                exact osRemoveStmt_perms env st _
          | true =>
            simp only [Bool.not_true, Bool.false_eq_true, if_false]
            rcases hls : file.readdir env st with ⟨res, file1⟩
            cases res with
            | error e => rfl
            | ok files =>
              simp only
              have hl := deleteLoop_perms env auth resource file.name files
                (DelAcc.mk st [] [] .success)
              cases hloop : deleteLoop env auth resource file.name files
                  (DelAcc.mk st [] [] .success) with
              | error r =>
                rw [hloop] at hl
                exact hl
              | ok acc =>
                rw [hloop] at hl
                simp only at hl ⊢
                rcases file1.readdir env acc.st with ⟨res2, file2⟩
                cases res2 with
                | error e => exact hl
                | ok files2 =>
                  simp only
                  split
                  · simp only [osRemoveStmt_perms]
                    exact hl
                  · exact hl

/-- C10 (counterexample): alice, the owner, deletes the leaf `a.txt`: the
resource is gone from the tree and its permission record is still in the
store, so the record exists although the resource does not. -/
theorem fileDelete_leaves_record :
    docsAB.perms "/v1/file/docs/a.txt" = some (publicRead "alice") ∧
    (fileDelete sampleEnv docsAB (.ok (some alice)) "/v1/file/docs/a.txt").2.node
      (sampleEnv.urlPathToFile "/v1/file/docs/a.txt") = none ∧
    (fileDelete sampleEnv docsAB (.ok (some alice)) "/v1/file/docs/a.txt").2.perms
      "/v1/file/docs/a.txt" = some (publicRead "alice") ∧
    ¬ (((fileDelete sampleEnv docsAB (.ok (some alice)) "/v1/file/docs/a.txt").2.perms
        "/v1/file/docs/a.txt").isSome = true ↔
      ((docsAB.perms "/v1/file/docs/a.txt").isSome = true ∧
        ((fileDelete sampleEnv docsAB (.ok (some alice)) "/v1/file/docs/a.txt").2.node
          (sampleEnv.urlPathToFile "/v1/file/docs/a.txt")).isSome = true)) := by
  decide

/-! ## filePost: one item -/

theorem postFile_node (env : Env) (auth : Auth) (urlPath : String) (acc : PostAcc)
    (fh : FileHeader) (k : String) :
    (postFile env auth urlPath acc fh).st.node k =
      if k = targetFile env urlPath fh ∧ acc.st.node (targetFile env urlPath fh) = none then
        fh.leftover
      else acc.st.node k := by
  unfold postFile targetFile FileHeader.leftover
  cases h1 : fh.openErr with
  | some e =>
    simp only [PostAcc.failWith]
    split_ifs with h
    · rw [h.1, h.2]
    · rfl
  | none =>
    cases h2 : fh.content with
    | error e =>
      simp only [PostAcc.failWith]
      split_ifs with h
      · rw [h.1, h.2]
      · rfl
    | ok bytes =>
      cases h3 : acc.st.node (env.urlPathToFile (env.pathJoin urlPath fh.Filename)) with
      | some n => simp [osOpenFileExcl, h3, PostAcc.failWith]
      | none =>
        cases h4 : fh.createErr with
        | some e =>
          simp only [osOpenFileExcl, h3, h4, PostAcc.failWith]
          split_ifs with h
          · rw [h.1, h3]
          · rfl
        | none =>
          cases h5 : writeCloseErr fh bytes with
          | some e =>
            by_cases hk : k = env.urlPathToFile (env.pathJoin urlPath fh.Filename) <;>
              simp [osOpenFileExcl, h3, h4, h5, PostAcc.failWith, State.put, hk]
          | none =>
            cases h6 : fh.setPermErr with
            | some e =>
              by_cases hk : k = env.urlPathToFile (env.pathJoin urlPath fh.Filename) <;>
                simp [osOpenFileExcl, h3, h4, h5, h6, setPermissions, PostAcc.failWith,
                  State.put, hk]
            | none =>
              by_cases hk : k = env.urlPathToFile (env.pathJoin urlPath fh.Filename) <;>
                simp [osOpenFileExcl, h3, h4, h5, h6, setPermissions, State.put, hk]

theorem postFile_perms (env : Env) (auth : Auth) (urlPath : String) (acc : PostAcc)
    (fh : FileHeader) (r : String) :
    (postFile env auth urlPath acc fh).st.perms r =
      if r = targetUrl env urlPath fh ∧ acc.st.node (targetFile env urlPath fh) = none ∧
          fh.clean = true then
        some (uploadPermission auth)
      else acc.st.perms r := by
  unfold postFile targetFile targetUrl FileHeader.clean uploadPermission
  cases h1 : fh.openErr with
  | some e => simp [PostAcc.failWith]
  | none =>
    cases h2 : fh.content with
    | error e => simp [PostAcc.failWith]
    | ok bytes =>
      cases h3 : acc.st.node (env.urlPathToFile (env.pathJoin urlPath fh.Filename)) with
      | some n => simp [osOpenFileExcl, h3, PostAcc.failWith]
      | none =>
        cases h4 : fh.createErr with
        | some e => simp [osOpenFileExcl, h3, h4, PostAcc.failWith]
        | none =>
          cases h5 : writeCloseErr fh bytes with
          | some e => simp [osOpenFileExcl, h3, h4, h5, PostAcc.failWith, State.put]
          | none =>
            cases h6 : fh.setPermErr with
            | some e =>
              simp [osOpenFileExcl, h3, h4, h5, h6, setPermissions, PostAcc.failWith, State.put]
            | none =>
              by_cases hr : r = env.pathJoin urlPath fh.Filename <;>
                simp [osOpenFileExcl, h3, h4, h5, h6, setPermissions, State.put, hr]

theorem postFile_lists (env : Env) (auth : Auth) (urlPath : String) (acc : PostAcc)
    (fh : FileHeader) :
    (postFile env auth urlPath acc fh).fileList =
      (if acc.st.node (targetFile env urlPath fh) = none ∧ fh.clean = true then
        acc.fileList ++ [Properties.mk (targetFile env urlPath fh) (targetUrl env urlPath fh)]
      else acc.fileList) ∧
    (postFile env auth urlPath acc fh).errors =
      (if acc.st.node (targetFile env urlPath fh) = none ∧ fh.clean = true then acc.errors
      else acc.errors ++
        [(env.fileErrorItem (fh.failure (acc.st.node (targetFile env urlPath fh)).isNone)
          (targetFile env urlPath fh) (targetUrl env urlPath fh)).2]) := by
  unfold postFile targetFile targetUrl FileHeader.clean FileHeader.failure
  cases h1 : fh.openErr with
  | some e => simp [PostAcc.failWith]
  | none =>
    cases h2 : fh.content with
    | error e => simp [PostAcc.failWith]
    | ok bytes =>
      cases h3 : acc.st.node (env.urlPathToFile (env.pathJoin urlPath fh.Filename)) with
      | some n => simp [osOpenFileExcl, h3, PostAcc.failWith]
      | none =>
        cases h4 : fh.createErr with
        | some e => simp [osOpenFileExcl, h3, h4, PostAcc.failWith]
        | none =>
          cases h5 : writeCloseErr fh bytes with
          | some e => simp [osOpenFileExcl, h3, h4, h5, PostAcc.failWith]
          | none =>
            cases h6 : fh.setPermErr with
            | some e =>
              simp [osOpenFileExcl, h3, h4, h5, h6, setPermissions, PostAcc.failWith]
            | none => simp [osOpenFileExcl, h3, h4, h5, h6, setPermissions]

theorem postFile_node_of_present (env : Env) (auth : Auth) (urlPath : String) (acc : PostAcc)
    (fh : FileHeader) (k : String) (h : acc.st.node k ≠ none) :
    (postFile env auth urlPath acc fh).st.node k = acc.st.node k := by
  rw [postFile_node, if_neg]
  rintro ⟨hk, hn⟩
  rw [hk] at h
  exact h hn

theorem postFile_node_of_ne (env : Env) (auth : Auth) (urlPath : String) (acc : PostAcc)
    (fh : FileHeader) (k : String) (h : targetFile env urlPath fh ≠ k) :
    (postFile env auth urlPath acc fh).st.node k = acc.st.node k := by
  rw [postFile_node, if_neg]
  rintro ⟨hk, -⟩
  exact h hk.symm

theorem postFile_perms_of_present (env : Env) (auth : Auth) (urlPath : String) (acc : PostAcc)
    (fh : FileHeader) (r : String) (h : acc.st.node (env.urlPathToFile r) ≠ none) :
    (postFile env auth urlPath acc fh).st.perms r = acc.st.perms r := by
  rw [postFile_perms, if_neg]
  rintro ⟨hr, hn, -⟩
  rw [hr] at h
  exact h hn

theorem postFile_fileList_mono (env : Env) (auth : Auth) (urlPath : String) (acc : PostAcc)
    (fh : FileHeader) (p : Properties) (h : p ∈ acc.fileList) :
    p ∈ (postFile env auth urlPath acc fh).fileList := by
  rw [(postFile_lists env auth urlPath acc fh).1]
  split_ifs
  · exact List.mem_append_left _ h
  · exact h

theorem postFile_errors_mono (env : Env) (auth : Auth) (urlPath : String) (acc : PostAcc)
    (fh : FileHeader) (e : ErrorItem) (h : e ∈ acc.errors) :
    e ∈ (postFile env auth urlPath acc fh).errors := by
  rw [(postFile_lists env auth urlPath acc fh).2]
  split_ifs
  · exact h
  · exact List.mem_append_left _ h

theorem postFile_fileList_new (env : Env) (auth : Auth) (urlPath : String) (acc : PostAcc)
    (fh : FileHeader) (p : Properties)
    (h : p ∈ (postFile env auth urlPath acc fh).fileList) :
    p ∈ acc.fileList ∨
      (p = Properties.mk (targetFile env urlPath fh) (targetUrl env urlPath fh) ∧
        acc.st.node (targetFile env urlPath fh) = none ∧ fh.clean = true) := by
  rw [(postFile_lists env auth urlPath acc fh).1] at h
  split_ifs at h with hc
  · rcases List.mem_append.mp h with h1 | h1
    · exact Or.inl h1
    · exact Or.inr ⟨List.mem_singleton.mp h1, hc.1, hc.2⟩
  · exact Or.inl h

/-! ## filePost: a batch -/

theorem filePost_eq (env : Env) (st : State) (auth : Auth) (urlPath : String)
    (mp : List (List FileHeader)) :
    filePost env st (.ok (some auth)) urlPath mp =
      ([.jsend (JSend.mk (runPost env auth urlPath st mp.flatten).status
          (runPost env auth urlPath st mp.flatten).fileList
          (runPost env auth urlPath st mp.flatten).errors "")],
        (runPost env auth urlPath st mp.flatten).st) := by
  simp [filePost, runPost, List.foldl_flatten]

theorem foldl_node_of_present (env : Env) (auth : Auth) (urlPath : String)
    (items : List FileHeader) :
    ∀ (acc : PostAcc) (k : String), acc.st.node k ≠ none →
      (items.foldl (postFile env auth urlPath) acc).st.node k = acc.st.node k := by
  induction items with
  | nil => intro acc k _; rfl
  | cons fh rest ih =>
    intro acc k h
    have h1 := postFile_node_of_present env auth urlPath acc fh k h
    rw [List.foldl_cons, ih _ k (by rw [h1]; exact h), h1]

theorem foldl_node_of_ne (env : Env) (auth : Auth) (urlPath : String)
    (items : List FileHeader) :
    ∀ (acc : PostAcc) (k : String), (∀ y ∈ items, targetFile env urlPath y ≠ k) →
      (items.foldl (postFile env auth urlPath) acc).st.node k = acc.st.node k := by
  induction items with
  | nil => intro acc k _; rfl
  | cons fh rest ih =>
    intro acc k h
    rw [List.foldl_cons, ih _ k (fun y hy => h y (List.mem_cons_of_mem _ hy)),
      postFile_node_of_ne env auth urlPath acc fh k (h fh (List.mem_cons_self _ _))]

theorem foldl_perms_of_present (env : Env) (auth : Auth) (urlPath : String)
    (items : List FileHeader) :
    ∀ (acc : PostAcc) (r : String), acc.st.node (env.urlPathToFile r) ≠ none →
      (items.foldl (postFile env auth urlPath) acc).st.perms r = acc.st.perms r := by
  induction items with
  | nil => intro acc r _; rfl
  | cons fh rest ih =>
    intro acc r h
    have h1 := postFile_node_of_present env auth urlPath acc fh _ h
    rw [List.foldl_cons, ih _ r (by rw [h1]; exact h),
      postFile_perms_of_present env auth urlPath acc fh r h]

theorem foldl_fileList_mono (env : Env) (auth : Auth) (urlPath : String)
    (items : List FileHeader) :
    ∀ (acc : PostAcc) (p : Properties), p ∈ acc.fileList →
      p ∈ (items.foldl (postFile env auth urlPath) acc).fileList := by
  induction items with
  | nil => intro acc p h; exact h
  | cons fh rest ih =>
    intro acc p h
    rw [List.foldl_cons]
    exact ih _ p (postFile_fileList_mono env auth urlPath acc fh p h)

theorem foldl_errors_mono (env : Env) (auth : Auth) (urlPath : String)
    (items : List FileHeader) :
    ∀ (acc : PostAcc) (e : ErrorItem), e ∈ acc.errors →
      e ∈ (items.foldl (postFile env auth urlPath) acc).errors := by
  induction items with
  | nil => intro acc e h; exact h
  | cons fh rest ih =>
    intro acc e h
    rw [List.foldl_cons]
    exact ih _ e (postFile_errors_mono env auth urlPath acc fh e h)

theorem foldl_error_of_present (env : Env) (auth : Auth) (urlPath : String)
    (items : List FileHeader) :
    ∀ (acc : PostAcc) (y : FileHeader), y ∈ items →
      acc.st.node (targetFile env urlPath y) ≠ none →
      (env.fileErrorItem (y.failure false) (targetFile env urlPath y)
        (targetUrl env urlPath y)).2 ∈ (items.foldl (postFile env auth urlPath) acc).errors := by
  induction items with
  | nil => intro acc y hy; exact absurd hy (List.not_mem_nil _)
  | cons fh rest ih =>
    intro acc y hy h
    rw [List.foldl_cons]
    rcases List.mem_cons.mp hy with rfl | hy1
    · apply foldl_errors_mono
      rw [(postFile_lists env auth urlPath acc y).2, if_neg (fun hc => h hc.1)]
      have hnone : (acc.st.node (targetFile env urlPath y)).isNone = false := by
        cases hn : acc.st.node (targetFile env urlPath y) with
        | none => exact absurd hn h
        | some n => rfl
      rw [hnone]
      exact List.mem_append_right _ (List.mem_singleton_self _)
    · apply ih _ y hy1
      rw [postFile_node_of_present env auth urlPath acc fh _ h]
      exact h

theorem foldl_fileList_of_present (env : Env) (auth : Auth) (urlPath : String)
    (items : List FileHeader) :
    ∀ (acc : PostAcc) (p : Properties), acc.st.node p.Name ≠ none →
      p ∈ (items.foldl (postFile env auth urlPath) acc).fileList → p ∈ acc.fileList := by
  induction items with
  | nil => intro acc p _ h; exact h
  | cons fh rest ih =>
    intro acc p hn h
    rw [List.foldl_cons] at h
    have h1 := ih _ p (by rw [postFile_node_of_present env auth urlPath acc fh _ hn]; exact hn) h
    rcases postFile_fileList_new env auth urlPath acc fh p h1 with h2 | ⟨hp, hnone, -⟩
    · exact h2
    · rw [hp] at hn
      exact absurd hnone hn

theorem clean_content {fh : FileHeader} (h : fh.clean = true) :
    ∃ bytes, fh.content = .ok bytes ∧ fh.leftover = some (.file bytes) := by
  unfold FileHeader.clean at h
  unfold FileHeader.leftover
  cases h1 : fh.openErr with
  | some e => simp [h1] at h
  | none =>
    cases h2 : fh.content with
    | error e => simp [h1, h2] at h
    | ok bytes =>
      cases h3 : fh.createErr with
      | some e => simp [h1, h2, h3] at h
      | none =>
        simp only [h1, h2, h3, Bool.and_eq_true, Option.isNone_iff_eq_none] at h
        refine ⟨bytes, rfl, ?_⟩
        have hw : ¬ fh.written < bytes.length := by
          intro hlt
          have := h.1
          unfold writeCloseErr at this
          cases h4 : fh.writeErr with
          | some e => simp [h4] at this
          | none => simp [h4, hlt] at this
        simp only
        rw [List.take_of_length_le (Nat.le_of_not_lt hw)]

theorem foldl_good (env : Env) (auth : Auth) (urlPath : String) (S : List FileHeader)
    (items : List FileHeader) :
    ∀ acc : PostAcc, (∀ fh ∈ items, fh ∈ S) →
      (∀ p ∈ acc.fileList, ∃ fh ∈ S, ∃ bytes, fh.content = .ok bytes ∧
        p = Properties.mk (targetFile env urlPath fh) (targetUrl env urlPath fh) ∧
        acc.st.node p.Name = some (.file bytes) ∧
        acc.st.perms p.Url = some (uploadPermission auth)) →
      ∀ p ∈ (items.foldl (postFile env auth urlPath) acc).fileList,
        ∃ fh ∈ S, ∃ bytes, fh.content = .ok bytes ∧
          p = Properties.mk (targetFile env urlPath fh) (targetUrl env urlPath fh) ∧
          (items.foldl (postFile env auth urlPath) acc).st.node p.Name = some (.file bytes) ∧
          (items.foldl (postFile env auth urlPath) acc).st.perms p.Url
            = some (uploadPermission auth) := by
  induction items with
  | nil => intro acc _ h; exact h
  | cons fh rest ih =>
    intro acc hS hgood
    rw [List.foldl_cons]
    apply ih _ (fun y hy => hS y (List.mem_cons_of_mem _ hy))
    intro p hp
    rcases postFile_fileList_new env auth urlPath acc fh p hp with h1 | ⟨hpe, hnone, hclean⟩
    · obtain ⟨fh0, hfh0, bytes, hc, hpe, hnode, hperm⟩ := hgood p h1
      refine ⟨fh0, hfh0, bytes, hc, hpe, ?_, ?_⟩
      · rw [postFile_node_of_present env auth urlPath acc fh _ (by rw [hnode]; simp)]
        exact hnode
      · rw [postFile_perms]
        split_ifs
        · rfl
        · exact hperm
    · obtain ⟨bytes, hc, hleft⟩ := clean_content hclean
      refine ⟨fh, hS fh (List.mem_cons_self _ _), bytes, hc, hpe, ?_, ?_⟩
      · rw [hpe, postFile_node, if_pos ⟨rfl, hnone⟩, hleft]
      · rw [hpe, postFile_perms, if_pos ⟨rfl, hnone, hclean⟩]

/-- C9: an anonymous requester gets the log-in failure and `filePost` leaves the
tree and the permission store as they were. For an authenticated requester,
every entry of `Data` is the target of an item of the batch whose bytes are,
after the call, the content of the file at the target path, and whose
permission record is then owner = the requester's username, public and friend
empty, private `rw`. -/
theorem filePost_owner_private (env : Env) (st : State) (urlPath : String)
    (mp : List (List FileHeader)) :
    filePost env st (.ok none) urlPath mp =
      ([.error (.pubFail (.text "You must log in before posting a file."))], st) ∧
    ∀ auth : Auth, ∃ status data errors,
      (filePost env st (.ok (some auth)) urlPath mp).1
        = [.jsend (JSend.mk status data errors "")] ∧
      ∀ p ∈ data, ∃ fh ∈ mp.flatten, ∃ bytes, fh.content = .ok bytes ∧
        p = Properties.mk (env.urlPathToFile (env.pathJoin urlPath fh.Filename))
          (env.pathJoin urlPath fh.Filename) ∧
        (filePost env st (.ok (some auth)) urlPath mp).2.node p.Name = some (.file bytes) ∧
        (filePost env st (.ok (some auth)) urlPath mp).2.perms p.Url
          = some (Permission.mk auth.user.username "" "" "rw") := by
  refine ⟨rfl, fun auth => ?_⟩
  rw [filePost_eq]
  refine ⟨_, _, _, rfl, ?_⟩
  intro p hp
  exact foldl_good env auth urlPath mp.flatten mp.flatten (PostAcc.mk st [] [] .success)
    (fun _ h => h) (fun q hq => absurd hq (List.not_mem_nil _)) p hp

/-- C9 on the sample installation: the anonymous upload changes nothing; the
upload of alice stores the bytes and the private record of alice. -/
theorem filePost_owner_private_witness :
    filePost sampleEnv upDir (.ok none) "/v1/file/up" [[upload "a.txt" [1, 2]]] =
      ([.error (.pubFail (.text "You must log in before posting a file."))], upDir) ∧
    (filePost sampleEnv upDir (.ok (some alice)) "/v1/file/up" [[upload "a.txt" [1, 2]]]).1
      = [.jsend (JSend.mk .success [Properties.mk "./v1/file/up/a.txt" "/v1/file/up/a.txt"]
          [] "")] ∧
    (filePost sampleEnv upDir (.ok (some alice)) "/v1/file/up" [[upload "a.txt" [1, 2]]]).2.node
      "./v1/file/up/a.txt" = some (.file [1, 2]) ∧
    (filePost sampleEnv upDir (.ok (some alice)) "/v1/file/up" [[upload "a.txt" [1, 2]]]).2.perms
      "/v1/file/up/a.txt" = some (Permission.mk "alice" "" "" "rw") :=
  ⟨(filePost_owner_private sampleEnv upDir "/v1/file/up" [[upload "a.txt" [1, 2]]]).1,
    by decide, by decide, by decide⟩

/-! ## filePost: exclusive creation -/

theorem respData_filePost (env : Env) (st : State) (auth : Auth) (urlPath : String)
    (mp : List (List FileHeader)) :
    respData (filePost env st (.ok (some auth)) urlPath mp).1
      = (runPost env auth urlPath st mp.flatten).fileList := by
  rw [filePost_eq]
  rfl

theorem respErrors_filePost (env : Env) (st : State) (auth : Auth) (urlPath : String)
    (mp : List (List FileHeader)) :
    respErrors (filePost env st (.ok (some auth)) urlPath mp).1
      = (runPost env auth urlPath st mp.flatten).errors := by
  rw [filePost_eq]
  rfl

theorem state_filePost (env : Env) (st : State) (auth : Auth) (urlPath : String)
    (mp : List (List FileHeader)) :
    (filePost env st (.ok (some auth)) urlPath mp).2
      = (runPost env auth urlPath st mp.flatten).st := by
  rw [filePost_eq]

theorem foldl_names_nodup (env : Env) (auth : Auth) (urlPath : String)
    (items : List FileHeader) :
    ∀ acc : PostAcc, (acc.fileList.map Properties.Name).Nodup →
      (∀ p ∈ acc.fileList, acc.st.node p.Name ≠ none) →
      ((items.foldl (postFile env auth urlPath) acc).fileList.map Properties.Name).Nodup := by
  induction items with
  | nil => intro acc h _; exact h
  | cons fh rest ih =>
    intro acc hnd hnode
    rw [List.foldl_cons]
    apply ih
    · rw [(postFile_lists env auth urlPath acc fh).1]
      split_ifs with hc
      · rw [List.map_append, List.nodup_append]
        refine ⟨hnd, List.nodup_singleton _, ?_⟩
        intro a ha hb
        simp only [List.map_cons, List.map_nil, List.mem_singleton] at hb
        obtain ⟨p, hp, hpa⟩ := List.mem_map.mp ha
        apply hnode p hp
        rw [hpa, hb]
        exact hc.1
      · exact hnd
    · intro p hp
      rcases postFile_fileList_new env auth urlPath acc fh p hp with h1 | ⟨hpe, hnone, hclean⟩
      · rw [postFile_node_of_present env auth urlPath acc fh _ (hnode p h1)]
        exact hnode p h1
      · obtain ⟨bytes, -, hleft⟩ := clean_content hclean
        rw [hpe, postFile_node, if_pos ⟨rfl, hnone⟩, hleft]
        simp

theorem failure_of_taken (fh : FileHeader) (bytes : List Nat) (h1 : fh.openErr = none)
    (h2 : fh.content = .ok bytes) : fh.failure false = .pubErr .exist := by
  simp [FileHeader.failure, h1, h2]

/-- C8 (as amended): for an authenticated requester, an item whose target path
already holds a resource is recorded in `Errors` (with the already-exists
error once its source was read) and not in `Data`, and the resource and its
permission record are unchanged. No target path is recorded twice in `Data`,
so of two items resolving to the same path at most one succeeds; when the
first item of the batch for a previously free path meets no failure of its
own, it is recorded in `Data`, its bytes are the stored content, and every
later item for that path is recorded in `Errors`. -/
theorem filePost_exclusive_create (env : Env) (st : State) (auth : Auth) (urlPath : String)
    (mp : List (List FileHeader)) :
    (∀ fh ∈ mp.flatten, st.node (targetFile env urlPath fh) ≠ none →
      (env.fileErrorItem (fh.failure false) (targetFile env urlPath fh)
          (targetUrl env urlPath fh)).2
        ∈ respErrors (filePost env st (.ok (some auth)) urlPath mp).1 ∧
      (∀ bytes, fh.openErr = none → fh.content = .ok bytes →
        fh.failure false = .pubErr .exist) ∧
      Properties.mk (targetFile env urlPath fh) (targetUrl env urlPath fh)
        ∉ respData (filePost env st (.ok (some auth)) urlPath mp).1 ∧
      (filePost env st (.ok (some auth)) urlPath mp).2.node (targetFile env urlPath fh)
        = st.node (targetFile env urlPath fh) ∧
      (filePost env st (.ok (some auth)) urlPath mp).2.perms (targetUrl env urlPath fh)
        = st.perms (targetUrl env urlPath fh)) ∧
    ((respData (filePost env st (.ok (some auth)) urlPath mp).1).map Properties.Name).Nodup ∧
    (∀ pre x post bytes, mp.flatten = pre ++ x :: post →
      st.node (targetFile env urlPath x) = none →
      (∀ y ∈ pre, targetFile env urlPath y ≠ targetFile env urlPath x) →
      x.clean = true → x.content = .ok bytes →
      Properties.mk (targetFile env urlPath x) (targetUrl env urlPath x)
        ∈ respData (filePost env st (.ok (some auth)) urlPath mp).1 ∧
      (filePost env st (.ok (some auth)) urlPath mp).2.node (targetFile env urlPath x)
        = some (.file bytes) ∧
      ∀ y ∈ post, targetFile env urlPath y = targetFile env urlPath x →
        (env.fileErrorItem (y.failure false) (targetFile env urlPath y)
            (targetUrl env urlPath y)).2
          ∈ respErrors (filePost env st (.ok (some auth)) urlPath mp).1) := by
  rw [respData_filePost, respErrors_filePost, state_filePost]
  refine ⟨?_, ?_, ?_⟩
  · intro fh hfh hnode
    refine ⟨?_, ?_, ?_, ?_, ?_⟩
    · exact foldl_error_of_present env auth urlPath mp.flatten _ fh hfh hnode
    · intro bytes h1 h2
      exact failure_of_taken fh bytes h1 h2
    · intro hmem
      have := foldl_fileList_of_present env auth urlPath mp.flatten
        (PostAcc.mk st [] [] .success) _ hnode hmem
      exact absurd this (List.not_mem_nil _)
    · exact foldl_node_of_present env auth urlPath mp.flatten _ _ hnode
    · exact foldl_perms_of_present env auth urlPath mp.flatten
        (PostAcc.mk st [] [] .success) _ hnode
  · exact foldl_names_nodup env auth urlPath mp.flatten (PostAcc.mk st [] [] .success)
      List.nodup_nil (fun p hp => absurd hp (List.not_mem_nil _))
  · intro pre x post bytes hsplit hfree hpre hclean hcontent
    unfold runPost
    rw [hsplit, List.foldl_append, List.foldl_cons]
    have hA : (pre.foldl (postFile env auth urlPath) (PostAcc.mk st [] [] .success)).st.node
        (targetFile env urlPath x) = none := by
      rw [foldl_node_of_ne env auth urlPath pre _ _ hpre]
      exact hfree
    obtain ⟨bytes1, hc1, hleft⟩ := clean_content hclean
    have hb : bytes1 = bytes := by
      rw [hcontent] at hc1
      exact (Except.ok.inj hc1).symm
    subst hb
    have hB : (postFile env auth urlPath
        (pre.foldl (postFile env auth urlPath) (PostAcc.mk st [] [] .success)) x).st.node
        (targetFile env urlPath x) = some (.file bytes1) := by
      rw [postFile_node, if_pos ⟨rfl, hA⟩, hleft]
    have hBne : (postFile env auth urlPath
        (pre.foldl (postFile env auth urlPath) (PostAcc.mk st [] [] .success)) x).st.node
        (targetFile env urlPath x) ≠ none := by
      rw [hB]
      simp
    refine ⟨?_, ?_, ?_⟩
    · apply foldl_fileList_mono
      rw [(postFile_lists env auth urlPath _ x).1, if_pos ⟨hA, hclean⟩]
      exact List.mem_append_right _ (List.mem_singleton_self _)
    · rw [foldl_node_of_present env auth urlPath post _ _ hBne]
      exact hB
    · intro y hy hsame
      apply foldl_error_of_present env auth urlPath post _ y hy
      rw [hsame]
      exact hBne

/-- C8 (counterexample): two items of one batch for the same free path
`/v1/file/up/a.txt`; `Write` is short for the first, the second is refused
because the path now exists: neither is recorded as succeeded, `Data` is empty
and `Errors` holds both, the file left holds the one byte written. -/
theorem filePost_same_target_none_succeeds :
    upDir.node "./v1/file/up/a.txt" = none ∧
    targetUrl sampleEnv "/v1/file/up" (shortUpload "a.txt" [1, 2] 1) = "/v1/file/up/a.txt" ∧
    targetUrl sampleEnv "/v1/file/up" (upload "a.txt" [3]) = "/v1/file/up/a.txt" ∧
    (filePost sampleEnv upDir (.ok (some alice)) "/v1/file/up"
        [[shortUpload "a.txt" [1, 2] 1, upload "a.txt" [3]]]).1
      = [.jsend (JSend.mk .fail []
          [ErrorItem.mk "short write" (Properties.mk "./v1/file/up/a.txt" "/v1/file/up/a.txt"),
            ErrorItem.mk "file exists" (Properties.mk "./v1/file/up/a.txt" "/v1/file/up/a.txt")]
          "")] ∧
    (filePost sampleEnv upDir (.ok (some alice)) "/v1/file/up"
        [[shortUpload "a.txt" [1, 2] 1, upload "a.txt" [3]]]).2.node "./v1/file/up/a.txt"
      = some (.file [1]) := by
  decide

/-! ## filePost: a failing item -/

theorem postFile_st_congr (env : Env) (auth : Auth) (urlPath : String) (acc acc1 : PostAcc)
    (fh : FileHeader) (h : acc.st = acc1.st) :
    (postFile env auth urlPath acc fh).st = (postFile env auth urlPath acc1 fh).st := by
  unfold postFile
  rw [h]
  cases h1 : fh.openErr with
  | some e => simp [PostAcc.failWith, h]
  | none =>
    cases h2 : fh.content with
    | error e => simp [PostAcc.failWith, h]
    | ok bytes =>
      cases h3 : osOpenFileExcl acc1.st (env.urlPathToFile (env.pathJoin urlPath fh.Filename))
          fh.createErr with
      | error e => simp [PostAcc.failWith, h3]
      | ok st1 =>
        cases h4 : writeCloseErr fh bytes with
        | some e => simp [PostAcc.failWith, h3, h4]
        | none =>
          cases h5 : setPermissions
              (st1.put (env.urlPathToFile (env.pathJoin urlPath fh.Filename))
                (.file (bytes.take fh.written))) (env.pathJoin urlPath fh.Filename)
              (Permission.mk auth.user.username "" "" "rw") fh.setPermErr with
          | error e => simp [PostAcc.failWith, h3, h4, h5]
          | ok st3 => simp [h3, h4, h5]

theorem itemOutcome_eq (env : Env) (auth : Auth) (urlPath : String) (st : State)
    (fh : FileHeader) :
    itemOutcome env auth urlPath st fh =
      if st.node (targetFile env urlPath fh) = none ∧ fh.clean = true then
        ([Properties.mk (targetFile env urlPath fh) (targetUrl env urlPath fh)], [])
      else
        ([], [(env.fileErrorItem (fh.failure (st.node (targetFile env urlPath fh)).isNone)
          (targetFile env urlPath fh) (targetUrl env urlPath fh)).2]) := by
  unfold itemOutcome
  rw [(postFile_lists env auth urlPath _ fh).1, (postFile_lists env auth urlPath _ fh).2]
  split_ifs <;> simp

theorem postFile_lists_outcome (env : Env) (auth : Auth) (urlPath : String) (acc : PostAcc)
    (fh : FileHeader) :
    (postFile env auth urlPath acc fh).fileList
      = acc.fileList ++ (itemOutcome env auth urlPath acc.st fh).1 ∧
    (postFile env auth urlPath acc fh).errors
      = acc.errors ++ (itemOutcome env auth urlPath acc.st fh).2 := by
  rw [itemOutcome_eq, (postFile_lists env auth urlPath acc fh).1,
    (postFile_lists env auth urlPath acc fh).2]
  split_ifs <;> simp

theorem foldl_st_congr (env : Env) (auth : Auth) (urlPath : String)
    (items : List FileHeader) :
    ∀ acc acc1 : PostAcc, acc.st = acc1.st →
      (items.foldl (postFile env auth urlPath) acc).st
        = (items.foldl (postFile env auth urlPath) acc1).st := by
  induction items with
  | nil => intro acc acc1 h; exact h
  | cons fh rest ih =>
    intro acc acc1 h
    rw [List.foldl_cons, List.foldl_cons]
    exact ih _ _ (postFile_st_congr env auth urlPath acc acc1 fh h)

theorem stateAfter_append (env : Env) (auth : Auth) (urlPath : String) (st : State)
    (a b : List FileHeader) :
    stateAfter env auth urlPath st (a ++ b)
      = stateAfter env auth urlPath (stateAfter env auth urlPath st a) b := by
  unfold stateAfter runPost
  rw [List.foldl_append]
  exact foldl_st_congr env auth urlPath b _ _ rfl

theorem outcomes_cons (env : Env) (auth : Auth) (urlPath : String) (st : State)
    (fh : FileHeader) (rest : List FileHeader) :
    outcomes env auth urlPath st (fh :: rest)
      = itemOutcome env auth urlPath st fh ::
        outcomes env auth urlPath (stateAfter env auth urlPath st [fh]) rest := rfl

theorem outcomes_append (env : Env) (auth : Auth) (urlPath : String)
    (a b : List FileHeader) :
    ∀ st : State, outcomes env auth urlPath st (a ++ b)
      = outcomes env auth urlPath st a
        ++ outcomes env auth urlPath (stateAfter env auth urlPath st a) b := by
  induction a with
  | nil => intro st; rfl
  | cons fh rest ih =>
    intro st
    rw [List.cons_append, outcomes_cons, outcomes_cons, ih, List.cons_append]
    congr 2
    rw [← stateAfter_append]
    rfl

theorem outcomes_length (env : Env) (auth : Auth) (urlPath : String)
    (items : List FileHeader) :
    ∀ st : State, (outcomes env auth urlPath st items).length = items.length := by
  induction items with
  | nil => intro st; rfl
  | cons fh rest ih =>
    intro st
    rw [outcomes_cons, List.length_cons, List.length_cons, ih]

theorem foldl_lists_outcomes (env : Env) (auth : Auth) (urlPath : String)
    (items : List FileHeader) :
    ∀ acc : PostAcc,
      (items.foldl (postFile env auth urlPath) acc).fileList
        = acc.fileList ++ ((outcomes env auth urlPath acc.st items).map Prod.fst).flatten ∧
      (items.foldl (postFile env auth urlPath) acc).errors
        = acc.errors ++ ((outcomes env auth urlPath acc.st items).map Prod.snd).flatten := by
  induction items with
  | nil => intro acc; simp [outcomes]
  | cons fh rest ih =>
    intro acc
    have hst : (postFile env auth urlPath acc fh).st = stateAfter env auth urlPath acc.st [fh] :=
      postFile_st_congr env auth urlPath acc _ fh rfl
    rw [List.foldl_cons, (ih _).1, (ih _).2, outcomes_cons, hst,
      (postFile_lists_outcome env auth urlPath acc fh).1,
      (postFile_lists_outcome env auth urlPath acc fh).2]
    simp

theorem outcomes_sim (env : Env) (auth : Auth) (urlPath : String) (F : String)
    (post : List FileHeader) :
    ∀ (s1 s2 : State), (∀ k, k ≠ F → s1.node k = s2.node k) →
      ∀ (i : Nat) (y : FileHeader), post[i]? = some y → targetFile env urlPath y ≠ F →
        (outcomes env auth urlPath s1 post)[i]? = (outcomes env auth urlPath s2 post)[i]? := by
  induction post with
  | nil => intro s1 s2 _ i y hy; simp at hy
  | cons fh rest ih =>
    intro s1 s2 hR i y hy hne
    rw [outcomes_cons, outcomes_cons]
    cases i with
    | zero =>
      simp only [List.getElem?_cons_zero, Option.some.injEq] at hy
      subst hy
      simp only [List.getElem?_cons_zero, Option.some.injEq]
      rw [itemOutcome_eq, itemOutcome_eq, hR _ hne]
    | succ j =>
      simp only [List.getElem?_cons_succ] at hy ⊢
      apply ih _ _ _ j y hy hne
      intro k hk
      unfold stateAfter runPost
      simp only [List.foldl_cons, List.foldl_nil]
      rw [postFile_node, postFile_node]
      simp only
      by_cases hkf : k = targetFile env urlPath fh
      · have h1 : s1.node (targetFile env urlPath fh) = s2.node (targetFile env urlPath fh) :=
          hR _ (hkf ▸ hk)
        rw [h1, hR k hk]
      · simp only [hkf, false_and, if_false]
        exact hR k hk

theorem failure_of_created (x : FileHeader) (bytes : List Nat) (hopen : x.openErr = none)
    (hread : x.content = .ok bytes) (hcreate : x.createErr = none) :
    (∀ e, writeCloseErr x bytes = some e → x.failure true = e) ∧
    (∀ e, writeCloseErr x bytes = none → x.setPermErr = some e → x.failure true = e) := by
  constructor
  · intro e he
    simp [FileHeader.failure, hopen, hread, hcreate, he]
  · intro e he hs
    simp [FileHeader.failure, hopen, hread, hcreate, he, hs]

theorem not_clean_of_failure (x : FileHeader) (bytes : List Nat) (hopen : x.openErr = none)
    (hread : x.content = .ok bytes) (hcreate : x.createErr = none)
    (hfail : writeCloseErr x bytes ≠ none ∨ x.setPermErr ≠ none) : ¬ x.clean = true := by
  intro hc
  unfold FileHeader.clean at hc
  simp only [hopen, hread, hcreate, Bool.and_eq_true, Option.isNone_iff_eq_none] at hc
  rcases hfail with h | h
  · exact h hc.1
  · exact h hc.2

/-- C7 (as amended): an item of the batch that fails after its destination was
created (the path was free at its turn, the source was read, `OpenFile`
succeeded, then `Write`, the short-write test, `Close` or `setPermissions`
failed) is not rolled back: after `filePost` its target path holds the file
with the bytes `Write` wrote. The item is recorded in `Errors`, with the error
met, and not in `Data`; every other item whose target path is a different one
has the outcome it has in the batch without the failing item. (`outcomes`
lists, item by item, what the loop appends to `Data` and to `Errors`.) -/
theorem filePost_failed_item_stays (env : Env) (st : State) (auth : Auth) (urlPath : String)
    (mp : List (List FileHeader)) (pre : List FileHeader) (x : FileHeader)
    (post : List FileHeader) (bytes : List Nat)
    (hsplit : mp.flatten = pre ++ x :: post)
    (hfree : (stateAfter env auth urlPath st pre).node (targetFile env urlPath x) = none)
    (hopen : x.openErr = none) (hread : x.content = .ok bytes) (hcreate : x.createErr = none)
    (hfail : writeCloseErr x bytes ≠ none ∨ x.setPermErr ≠ none) :
    (filePost env st (.ok (some auth)) urlPath mp).2.node (targetFile env urlPath x)
      = some (.file (bytes.take x.written)) ∧
    (env.fileErrorItem (x.failure true) (targetFile env urlPath x) (targetUrl env urlPath x)).2
      ∈ respErrors (filePost env st (.ok (some auth)) urlPath mp).1 ∧
    ((∀ e, writeCloseErr x bytes = some e → x.failure true = e) ∧
      (∀ e, writeCloseErr x bytes = none → x.setPermErr = some e → x.failure true = e)) ∧
    Properties.mk (targetFile env urlPath x) (targetUrl env urlPath x)
      ∉ respData (filePost env st (.ok (some auth)) urlPath mp).1 ∧
    (∀ mp2 : List (List FileHeader), mp2.flatten = pre ++ post →
      (∀ i, i < pre.length →
        (outcomes env auth urlPath st mp.flatten)[i]?
          = (outcomes env auth urlPath st mp2.flatten)[i]?) ∧
      (∀ i y, post[i]? = some y → targetFile env urlPath y ≠ targetFile env urlPath x →
        (outcomes env auth urlPath st mp.flatten)[pre.length + 1 + i]?
          = (outcomes env auth urlPath st mp2.flatten)[pre.length + i]?)) ∧
    (∀ mp1 : List (List FileHeader),
      respData (filePost env st (.ok (some auth)) urlPath mp1).1
        = ((outcomes env auth urlPath st mp1.flatten).map Prod.fst).flatten ∧
      respErrors (filePost env st (.ok (some auth)) urlPath mp1).1
        = ((outcomes env auth urlPath st mp1.flatten).map Prod.snd).flatten) := by
  have hnc := not_clean_of_failure x bytes hopen hread hcreate hfail
  have hleft : x.leftover = some (.file (bytes.take x.written)) := by
    simp [FileHeader.leftover, hopen, hread, hcreate]
  have hA : (pre.foldl (postFile env auth urlPath) (PostAcc.mk st [] [] .success)).st.node
      (targetFile env urlPath x) = none := hfree
  have hB : (postFile env auth urlPath
      (pre.foldl (postFile env auth urlPath) (PostAcc.mk st [] [] .success)) x).st.node
      (targetFile env urlPath x) = some (.file (bytes.take x.written)) := by
    rw [postFile_node, if_pos ⟨rfl, hA⟩, hleft]
  have hBne : (postFile env auth urlPath
      (pre.foldl (postFile env auth urlPath) (PostAcc.mk st [] [] .success)) x).st.node
      (targetFile env urlPath x) ≠ none := by
    rw [hB]
    simp
  refine ⟨?_, ?_, failure_of_created x bytes hopen hread hcreate, ?_, ?_, ?_⟩
  · rw [state_filePost]
    unfold runPost
    rw [hsplit, List.foldl_append, List.foldl_cons,
      foldl_node_of_present env auth urlPath post _ _ hBne]
    exact hB
  · rw [respErrors_filePost]
    unfold runPost
    rw [hsplit, List.foldl_append, List.foldl_cons]
    apply foldl_errors_mono
    rw [(postFile_lists env auth urlPath _ x).2, if_neg (fun hc => hnc hc.2), hA]
    exact List.mem_append_right _ (List.mem_singleton_self _)
  · rw [respData_filePost]
    unfold runPost
    rw [hsplit, List.foldl_append, List.foldl_cons]
    intro hmem
    have h1 := foldl_fileList_of_present env auth urlPath post _ _ hBne hmem
    rw [(postFile_lists env auth urlPath _ x).1, if_neg (fun hc => hnc hc.2)] at h1
    obtain ⟨fh, -, b, -, -, hnode, -⟩ := foldl_good env auth urlPath pre pre
      (PostAcc.mk st [] [] .success) (fun _ h => h)
      (fun q hq => absurd hq (List.not_mem_nil _)) _ h1
    simp only at hnode
    rw [hA] at hnode
    exact absurd hnode (by simp)
  · intro mp2 hmp2
    rw [hsplit, hmp2, outcomes_append, outcomes_append, outcomes_cons]
    constructor
    · intro i hi
      have hlen : i < (outcomes env auth urlPath st pre).length := by
        rw [outcomes_length]
        exact hi
      rw [List.getElem?_append_left hlen, List.getElem?_append_left hlen]
    · intro i y hy hne
      have hlen := outcomes_length env auth urlPath pre st
      rw [List.getElem?_append_right (by rw [hlen]; omega),
        List.getElem?_append_right (by rw [hlen]; omega), hlen]
      have e1 : pre.length + 1 + i - pre.length = i + 1 := by omega
      have e2 : pre.length + i - pre.length = i := by omega
      rw [e1, e2, List.getElem?_cons_succ, ← stateAfter_append]
      apply outcomes_sim env auth urlPath (targetFile env urlPath x) post _ _ _ i y hy hne
      intro k hk
      unfold stateAfter runPost
      rw [List.foldl_append, List.foldl_cons, List.foldl_nil,
        postFile_node_of_ne env auth urlPath _ x k (fun h => hk h.symm)]
  · intro mp1
    rw [respData_filePost, respErrors_filePost]
    unfold runPost
    have h := foldl_lists_outcomes env auth urlPath mp1.flatten (PostAcc.mk st [] [] .success)
    simp only [List.nil_append] at h
    exact h

/-- C7 (as amended) on the sample installation: of three uploads the second is
short-written; its file stays with the byte written, it is in `Errors` only,
and the third upload has the outcome it has without the second. -/
theorem filePost_failed_item_stays_witness :
    (filePost sampleEnv upDir (.ok (some alice)) "/v1/file/up"
        [[upload "b.txt" [9], shortUpload "a.txt" [1, 2] 1], [upload "c.txt" [7]]]).2.node
      "./v1/file/up/a.txt" = some (.file [1]) ∧
    ErrorItem.mk "short write" (Properties.mk "./v1/file/up/a.txt" "/v1/file/up/a.txt")
      ∈ respErrors (filePost sampleEnv upDir (.ok (some alice)) "/v1/file/up"
        [[upload "b.txt" [9], shortUpload "a.txt" [1, 2] 1], [upload "c.txt" [7]]]).1 ∧
    Properties.mk "./v1/file/up/a.txt" "/v1/file/up/a.txt"
      ∉ respData (filePost sampleEnv upDir (.ok (some alice)) "/v1/file/up"
        [[upload "b.txt" [9], shortUpload "a.txt" [1, 2] 1], [upload "c.txt" [7]]]).1 ∧
    (outcomes sampleEnv alice "/v1/file/up" upDir
        [upload "b.txt" [9], shortUpload "a.txt" [1, 2] 1, upload "c.txt" [7]])[2]?
      = (outcomes sampleEnv alice "/v1/file/up" upDir
        [upload "b.txt" [9], upload "c.txt" [7]])[1]? ∧
    (outcomes sampleEnv alice "/v1/file/up" upDir
        [upload "b.txt" [9], upload "c.txt" [7]])[1]?
      = some ([Properties.mk "./v1/file/up/c.txt" "/v1/file/up/c.txt"], []) := by
  have h := filePost_failed_item_stays sampleEnv upDir alice "/v1/file/up"
    [[upload "b.txt" [9], shortUpload "a.txt" [1, 2] 1], [upload "c.txt" [7]]]
    [upload "b.txt" [9]] (shortUpload "a.txt" [1, 2] 1) [upload "c.txt" [7]] [1, 2]
    rfl (by decide) rfl rfl rfl (Or.inl (by decide))
  refine ⟨h.1.trans (by decide), ?_, ?_, ?_, by decide⟩
  · have h2 := h.2.1
    have e : (sampleEnv.fileErrorItem ((shortUpload "a.txt" [1, 2] 1).failure true)
        (targetFile sampleEnv "/v1/file/up" (shortUpload "a.txt" [1, 2] 1))
        (targetUrl sampleEnv "/v1/file/up" (shortUpload "a.txt" [1, 2] 1))).2
        = ErrorItem.mk "short write"
          (Properties.mk "./v1/file/up/a.txt" "/v1/file/up/a.txt") := by decide
    rw [e] at h2
    exact h2
  · have h3 := h.2.2.2.1
    have e : Properties.mk (targetFile sampleEnv "/v1/file/up" (shortUpload "a.txt" [1, 2] 1))
        (targetUrl sampleEnv "/v1/file/up" (shortUpload "a.txt" [1, 2] 1))
        = Properties.mk "./v1/file/up/a.txt" "/v1/file/up/a.txt" := by decide
    rw [e] at h3
    exact h3
  · exact (h.2.2.2.2.1 [[upload "b.txt" [9], upload "c.txt" [7]]] rfl).2 0
      (upload "c.txt" [7]) rfl (by decide)

/-- C7 (counterexample): alice uploads `a.txt` with two bytes of which `Write`
writes one. The item is recorded in `Errors`, and the file created for it is
still at its target path after `filePost`, holding the byte written: the item
is not rolled back. A second item for the same path in the same batch is then
refused, while alone it is stored. -/
theorem filePost_short_write_stays :
    upDir.node "./v1/file/up/a.txt" = none ∧
    writeCloseErr (shortUpload "a.txt" [1, 2] 1) [1, 2] = some .shortWrite ∧
    (filePost sampleEnv upDir (.ok (some alice)) "/v1/file/up"
        [[shortUpload "a.txt" [1, 2] 1]]).1
      = [.jsend (JSend.mk .error []
          [ErrorItem.mk "short write" (Properties.mk "./v1/file/up/a.txt" "/v1/file/up/a.txt")]
          "")] ∧
    (filePost sampleEnv upDir (.ok (some alice)) "/v1/file/up"
        [[shortUpload "a.txt" [1, 2] 1]]).2.node "./v1/file/up/a.txt" = some (.file [1]) ∧
    ¬ ((filePost sampleEnv upDir (.ok (some alice)) "/v1/file/up"
        [[shortUpload "a.txt" [1, 2] 1]]).2.node "./v1/file/up/a.txt" = none) ∧
    respData (filePost sampleEnv upDir (.ok (some alice)) "/v1/file/up"
        [[shortUpload "a.txt" [1, 2] 1, upload "a.txt" [3]]]).1 = [] ∧
    respData (filePost sampleEnv upDir (.ok (some alice)) "/v1/file/up"
        [[upload "a.txt" [3]]]).1
      = [Properties.mk "./v1/file/up/a.txt" "/v1/file/up/a.txt"] := by
  decide

/-- C8 (as amended) on the sample installation: an upload onto the existing
`a.txt` of alice is refused and leaves it as it was; of two uploads to the
same free path the first is stored and the second refused. -/
theorem filePost_exclusive_create_witness :
    (ErrorItem.mk "file exists" (Properties.mk "./v1/file/docs/a.txt" "/v1/file/docs/a.txt")
      ∈ respErrors (filePost sampleEnv docsAB (.ok (some bob)) "/v1/file/docs"
        [[upload "a.txt" [5]]]).1 ∧
      (filePost sampleEnv docsAB (.ok (some bob)) "/v1/file/docs"
        [[upload "a.txt" [5]]]).2.node "./v1/file/docs/a.txt" = some (.file [97]) ∧
      (filePost sampleEnv docsAB (.ok (some bob)) "/v1/file/docs"
        [[upload "a.txt" [5]]]).2.perms "/v1/file/docs/a.txt" = some (publicRead "alice")) ∧
    (Properties.mk "./v1/file/up/a.txt" "/v1/file/up/a.txt"
      ∈ respData (filePost sampleEnv upDir (.ok (some alice)) "/v1/file/up"
        [[upload "a.txt" [1, 2], upload "a.txt" [3]]]).1 ∧
      (filePost sampleEnv upDir (.ok (some alice)) "/v1/file/up"
        [[upload "a.txt" [1, 2], upload "a.txt" [3]]]).2.node "./v1/file/up/a.txt"
        = some (.file [1, 2]) ∧
      ErrorItem.mk "file exists" (Properties.mk "./v1/file/up/a.txt" "/v1/file/up/a.txt")
        ∈ respErrors (filePost sampleEnv upDir (.ok (some alice)) "/v1/file/up"
          [[upload "a.txt" [1, 2], upload "a.txt" [3]]]).1) := by
  have h1 := (filePost_exclusive_create sampleEnv docsAB bob "/v1/file/docs"
    [[upload "a.txt" [5]]]).1 (upload "a.txt" [5]) (by simp) (by decide)
  have h2 := (filePost_exclusive_create sampleEnv upDir alice "/v1/file/up"
    [[upload "a.txt" [1, 2], upload "a.txt" [3]]]).2.2 [] (upload "a.txt" [1, 2])
    [upload "a.txt" [3]] [1, 2] rfl (by decide) (by simp) rfl rfl
  have e1 : (sampleEnv.fileErrorItem ((upload "a.txt" [5]).failure false)
      (targetFile sampleEnv "/v1/file/docs" (upload "a.txt" [5]))
      (targetUrl sampleEnv "/v1/file/docs" (upload "a.txt" [5]))).2
      = ErrorItem.mk "file exists"
        (Properties.mk "./v1/file/docs/a.txt" "/v1/file/docs/a.txt") := by decide
  have e2 : Properties.mk (targetFile sampleEnv "/v1/file/up" (upload "a.txt" [1, 2]))
      (targetUrl sampleEnv "/v1/file/up" (upload "a.txt" [1, 2]))
      = Properties.mk "./v1/file/up/a.txt" "/v1/file/up/a.txt" := by decide
  have e3 : (sampleEnv.fileErrorItem ((upload "a.txt" [3]).failure false)
      (targetFile sampleEnv "/v1/file/up" (upload "a.txt" [3]))
      (targetUrl sampleEnv "/v1/file/up" (upload "a.txt" [3]))).2
      = ErrorItem.mk "file exists"
        (Properties.mk "./v1/file/up/a.txt" "/v1/file/up/a.txt") := by decide
  have h3 := h2.2.2 (upload "a.txt" [3]) (by simp) rfl
  rw [e1] at h1
  rw [e2] at h2
  rw [e3] at h3
  exact ⟨⟨h1.1, h1.2.2.2.1.trans (by decide), h1.2.2.2.2.trans (by decide)⟩,
    ⟨h2.1, h2.2.1.trans (by decide), h3⟩⟩

end Freehold
